import Mathlib

/-!
Shallow embedding of the release-reconciliation engine of the
`partner-charts-ci` repository, together with proofs settling the frozen
claims about it.

Conventions:
* Go strings are modelled by Lean `String`; string algorithms are written
  over the underlying `List Char` (all strings handled by the engine are
  ASCII, where Go's byte-wise operations and char-wise operations agree).
* Go `uint64` arithmetic is `Nat` with explicit `% 2^64` where overflow can
  occur; `uint64(i)` conversion of a Go `int` is two's-complement, modelled
  by `Int.emod` into `[0, 2^64)`.
* Fallible Go code returns `Except`/`Option`; a nil-pointer dereference or
  out-of-range index (a Go runtime panic) is modelled by a distinguished
  `none`/error outcome, as noted at each site.
-/

namespace PartnerCharts

/-! ## Character and decimal-digit utilities -/

/-- Decimal digit character, `48 + d` is the ASCII code of digit `d`. -/
def digitChar (d : Nat) : Char := Char.ofNat (48 + d)

/-- Decimal digits of `n`, most significant first, via a structural fuel so
that the kernel can evaluate it.  `natDigits` instantiates the fuel. -/
def natDigitsAux : Nat → Nat → List Char
  | 0, _ => []
  | fuel + 1, n =>
    if n < 10 then [digitChar n]
    else natDigitsAux fuel (n / 10) ++ [digitChar (n % 10)]

/-- Decimal rendering of a natural number (Go `fmt.Sprintf("%d", n)`). -/
def natDigits (n : Nat) : List Char := natDigitsAux (n + 1) n

/-- `c` is an ASCII decimal digit. -/
def isDigitChar (c : Char) : Bool := 48 ≤ c.toNat && c.toNat ≤ 57

/-- Numeric value of a digit string (Go `strconv.ParseUint`, without the
range check, which callers perform separately). -/
def parseDigitsNum (l : List Char) : Nat :=
  l.foldl (fun acc c => 10 * acc + (c.toNat - 48)) 0

theorem natDigitsAux_congr :
    ∀ f1 f2 n, n < f1 → n < f2 → natDigitsAux f1 n = natDigitsAux f2 n := by
  intro f1
  induction f1 with
  | zero => intro f2 n h1; omega
  | succ g ih =>
    intro f2 n h1 h2
    match f2, h2 with
    | f + 1, _ =>
      simp only [natDigitsAux]
      by_cases hn : n < 10
      · simp [hn]
      · simp only [hn, if_false]
        have hdiv : n / 10 < n := Nat.div_lt_self (by omega) (by omega)
        rw [ih f (n / 10) (by omega) (by omega)]

theorem natDigits_eq (n : Nat) :
    natDigits n =
      if n < 10 then [digitChar n] else natDigits (n / 10) ++ [digitChar (n % 10)] := by
  have h1 : natDigits n =
      if n < 10 then [digitChar n] else natDigitsAux n (n / 10) ++ [digitChar (n % 10)] := rfl
  rw [h1]
  by_cases hn : n < 10
  · simp [hn]
  · have hdiv : n / 10 < n := Nat.div_lt_self (by omega) (by omega)
    simp only [hn, if_false]
    rw [natDigitsAux_congr n (n / 10 + 1) (n / 10) (by omega) (by omega)]
    rfl

theorem toNat_digitChar {d : Nat} (h : d < 10) : (digitChar d).toNat = 48 + d := by
  interval_cases d <;> rfl

theorem isDigitChar_digitChar {d : Nat} (h : d < 10) : isDigitChar (digitChar d) = true := by
  interval_cases d <;> rfl

theorem natDigits_ne_nil (n : Nat) : natDigits n ≠ [] := by
  rw [natDigits_eq]
  by_cases hn : n < 10 <;> simp [hn]

theorem natDigits_all_digit (n : Nat) : ∀ c ∈ natDigits n, isDigitChar c = true := by
  induction n using Nat.strong_induction_on with
  | _ n ih =>
    rw [natDigits_eq]
    by_cases hn : n < 10
    · simp only [hn, if_true, List.mem_singleton]
      rintro c rfl
      exact isDigitChar_digitChar hn
    · simp only [hn, if_false, List.mem_append, List.mem_singleton]
      rintro c (hc | rfl)
      · exact ih (n / 10) (Nat.div_lt_self (by omega) (by omega)) c hc
      · exact isDigitChar_digitChar (Nat.mod_lt _ (by omega))

theorem parseDigits_from (a : Nat) (l : List Char) :
    l.foldl (fun acc c => 10 * acc + (c.toNat - 48)) a =
      a * 10 ^ l.length + parseDigitsNum l := by
  induction l generalizing a with
  | nil => simp [parseDigitsNum]
  | cons c rest ih =>
    simp only [List.foldl_cons, parseDigitsNum, List.length_cons]
    rw [ih (10 * a + (c.toNat - 48)), ih (10 * 0 + (c.toNat - 48))]
    ring

theorem parseDigitsNum_append (l1 l2 : List Char) :
    parseDigitsNum (l1 ++ l2) = parseDigitsNum l1 * 10 ^ l2.length + parseDigitsNum l2 := by
  simp only [parseDigitsNum, List.foldl_append]
  rw [parseDigits_from]
  rfl

theorem parseDigitsNum_natDigits (n : Nat) : parseDigitsNum (natDigits n) = n := by
  induction n using Nat.strong_induction_on with
  | _ n ih =>
    rw [natDigits_eq]
    by_cases hn : n < 10
    · simp only [hn, if_true]
      simp [parseDigitsNum, toNat_digitChar hn]
    · simp only [hn, if_false]
      rw [parseDigitsNum_append,
        ih (n / 10) (Nat.div_lt_self (by omega) (by omega))]
      have hm : n % 10 < 10 := Nat.mod_lt _ (by omega)
      simp only [parseDigitsNum, List.foldl_cons, List.foldl_nil, List.length_cons,
        List.length_nil, toNat_digitChar hm]
      omega

theorem isDigitChar_ne {c : Char} (h : isDigitChar c = true) :
    c ≠ '.' ∧ c ≠ '-' ∧ c ≠ '+' ∧ c ≠ 'v' ∧ c ≠ '/' := by
  refine ⟨?_, ?_, ?_, ?_, ?_⟩ <;> rintro rfl <;> simp [isDigitChar] at h

/-! ## Splitting and joining character lists -/

/-- `strings.Split` on a single separator character. -/
def splitOnCharL (c : Char) : List Char → List (List Char)
  | [] => [[]]
  | x :: xs =>
    match splitOnCharL c xs with
    | [] => [[]]
    | g :: gs => if x = c then [] :: g :: gs else (x :: g) :: gs

/-- `strings.Join` with a single separator character. -/
def intercalateChar (c : Char) : List (List Char) → List Char
  | [] => []
  | [g] => g
  | g :: gs => g ++ c :: intercalateChar c gs

theorem splitOnCharL_ne_nil (c : Char) (l : List Char) : splitOnCharL c l ≠ [] := by
  induction l with
  | nil => simp [splitOnCharL]
  | cons x xs ih =>
    simp only [splitOnCharL]
    match h : splitOnCharL c xs with
    | [] => simp
    | g :: gs => by_cases hx : x = c <;> simp [hx]

theorem splitOnCharL_not_mem {c : Char} {l : List Char} (h : c ∉ l) :
    splitOnCharL c l = [l] := by
  induction l with
  | nil => rfl
  | cons x xs ih =>
    simp only [List.mem_cons, not_or] at h
    simp only [splitOnCharL, ih h.2]
    rw [if_neg (fun hxc => h.1 hxc.symm)]

theorem splitOnCharL_append {c : Char} {xs : List Char} (ys : List Char) (h : c ∉ xs) :
    splitOnCharL c (xs ++ c :: ys) = xs :: splitOnCharL c ys := by
  induction xs with
  | nil =>
    simp only [List.nil_append, splitOnCharL]
    match hy : splitOnCharL c ys with
    | [] => exact absurd hy (splitOnCharL_ne_nil c ys)
    | g :: gs => simp
  | cons x xs ih =>
    simp only [List.mem_cons, not_or] at h
    simp only [List.cons_append, splitOnCharL, List.append_eq, ih h.2]
    rw [if_neg (fun hxc => h.1 hxc.symm)]

/-! ## Semantic versions (model of `Masterminds/semver/v3` as used by the code) -/

/-- `strconv.ParseUint(_, 10, 64)` rejects values at or above `2^64`. -/
def uint64Bound : Nat := 18446744073709551616

/-- A parsed semantic version: the fields of `semver.Version` that the
engine reads (`major`, `minor`, `patch`, prerelease, build metadata). -/
structure SemVer where
  major : Nat
  minor : Nat
  patch : Nat
  pre : String
  metadata : String
deriving DecidableEq, Repr

/-- Characters allowed in prerelease/metadata groups: `[0-9A-Za-z-]`. -/
def identChar (c : Char) : Bool :=
  isDigitChar c || (97 ≤ c.toNat && c.toNat ≤ 122) || (65 ≤ c.toNat && c.toNat ≤ 90) || c = '-'

/-- A dot-separated sequence of non-empty `identChar` groups (the
prerelease/metadata grammar of the `semver.NewVersion` regex). -/
def validDotted (l : List Char) : Bool :=
  (splitOnCharL '.' l).all fun g => !g.isEmpty && g.all identChar

/-- One numeric segment of the version core: non-empty, all digits, within
`uint64` range. -/
def parseSeg (l : List Char) : Option Nat :=
  if l.isEmpty then none
  else if l.all isDigitChar then
    if parseDigitsNum l < uint64Bound then some (parseDigitsNum l) else none
  else none

/-- The 1-3 segment numeric core `([0-9]+)(\.[0-9]+)?(\.[0-9]+)?`;
missing minor/patch segments default to `0`. -/
def parseNum (numPart : List Char) (pre md : String) : Option SemVer :=
  match (splitOnCharL '.' numPart).map parseSeg with
  | [some a] => some ⟨a, 0, 0, pre, md⟩
  | [some a, some b] => some ⟨a, b, 0, pre, md⟩
  | [some a, some b, some c] => some ⟨a, b, c, pre, md⟩
  | _ => none

/-- Parses the part of a version before any `+`: the numeric core,
optionally followed by `-` and a prerelease. -/
def parseMain (core : List Char) (md : String) : Option SemVer :=
  match core.dropWhile (fun c => c ≠ '-') with
  | [] => parseNum (core.takeWhile (fun c => c ≠ '-')) "" md
  | _ :: preChars =>
    if validDotted preChars then
      parseNum (core.takeWhile (fun c => c ≠ '-')) (String.mk preChars) md
    else none

/-- The optional leading `v` of the `NewVersion` regex. -/
def stripV : List Char → List Char
  | 'v' :: rest => rest
  | l => l

/-- `semver.NewVersion`: anchored match of
`v?([0-9]+)(\.[0-9]+)?(\.[0-9]+)?(-pre)?(\+meta)?`; `none` is a parse
error. -/
def newVersionL (l : List Char) : Option SemVer :=
  match splitOnCharL '+' (stripV l) with
  | [core] => parseMain core ""
  | [core, metaPart] =>
    if validDotted metaPart then parseMain core (String.mk metaPart) else none
  | _ => none

def newVersion (s : String) : Option SemVer := newVersionL s.data

/-- `semver.Version.String()`: `major.minor.patch[-pre][+metadata]`. -/
def semverChars (v : SemVer) : List Char :=
  natDigits v.major ++ '.' :: natDigits v.minor ++ '.' :: natDigits v.patch
    ++ (if v.pre = "" then [] else '-' :: v.pre.data)
    ++ (if v.metadata = "" then [] else '+' :: v.metadata.data)

def semverStr (v : SemVer) : String := String.mk (semverChars v)

/-- Three-way comparison of naturals, as Go's `compareSegment`. -/
def cmpN (a b : Nat) : Ordering :=
  if a < b then .lt else if b < a then .gt else .eq

/-- Go string comparison (byte-wise lexicographic; the engine only compares
ASCII prerelease groups, where byte order and char order agree). -/
def cmpCharList : List Char → List Char → Ordering
  | [], [] => .eq
  | [], _ :: _ => .lt
  | _ :: _, [] => .gt
  | a :: as, b :: bs =>
    if a.toNat < b.toNat then .lt
    else if b.toNat < a.toNat then .gt
    else cmpCharList as bs

/-- A prerelease group parses as a `uint64` number. -/
def isNumericSeg (l : List Char) : Bool :=
  !l.isEmpty && l.all isDigitChar && decide (parseDigitsNum l < uint64Bound)

/-- `comparePrePart`: numeric groups compare numerically and sort below
alphanumeric groups; equal-valued distinct numerals (e.g. `007` vs `7`)
yield `-1`, as in the source. -/
def comparePrePart (s o : List Char) : Ordering :=
  if s = o then .eq
  else if s.isEmpty then .lt
  else if o.isEmpty then .gt
  else
    match isNumericSeg s, isNumericSeg o with
    | false, false => if cmpCharList s o = .gt then .gt else .lt
    | true, false => .lt
    | false, true => .gt
    | true, true => if parseDigitsNum o < parseDigitsNum s then .gt else .lt

/-- `comparePrerelease` walks the dot-split groups of both sides, padding
the shorter side with empty groups. -/
def comparePreLists : List (List Char) → List (List Char) → Ordering
  | [], [] => .eq
  | x :: xs, [] =>
    match comparePrePart x [] with
    | .eq => comparePreLists xs []
    | d => d
  | [], y :: ys =>
    match comparePrePart [] y with
    | .eq => comparePreLists [] ys
    | d => d
  | x :: xs, y :: ys =>
    match comparePrePart x y with
    | .eq => comparePreLists xs ys
    | d => d

/-- `semver.Version.Compare`: numeric core first, then prerelease
precedence (empty prerelease sorts above non-empty); metadata ignored. -/
def compareSemVer (a b : SemVer) : Ordering :=
  if cmpN a.major b.major ≠ .eq then cmpN a.major b.major
  else if cmpN a.minor b.minor ≠ .eq then cmpN a.minor b.minor
  else if cmpN a.patch b.patch ≠ .eq then cmpN a.patch b.patch
  else if a.pre = "" && b.pre = "" then .eq
  else if a.pre = "" then .gt
  else if b.pre = "" then .lt
  else comparePreLists (splitOnCharL '.' a.pre.data) (splitOnCharL '.' b.pre.data)

/-- `semver.Version.GreaterThan`. -/
def greaterThanSV (a b : SemVer) : Bool := decide (compareSemVer a b = .gt)

/-! ## `pkg/conform`: package-version encoding and stripping -/

def PatchNumMultiplier : Nat := 100
def MaxPatchNum : Nat := 99

/-- Go `uint64(i)` conversion of an `int`: two's-complement wrap. -/
def uint64Cast (i : Int) : Nat := (i % (uint64Bound : Int)).toNat

/-- `conform.StripPackageVersion`.  Returns `none` where the Go code
dereferences a nil `*semver.Version` (a runtime panic): the input fails to
parse, or the re-joined string (patch replaced at dot-index 2) fails to
re-parse.  Note the source computes `packageVersion := patch % 2` — not
`% PatchNumMultiplier` — which is harmless for the quotient but is kept
verbatim here. -/
def stripPackageVersion (chartVersion : String) : Option String :=
  match newVersion chartVersion with
  | none => none
  | some version =>
    if PatchNumMultiplier ≤ version.patch then
      let packageVersion := version.patch % 2
      let patchVersion := (version.patch - packageVersion) / PatchNumMultiplier
      match splitOnCharL '.' (semverChars version) with
      | s0 :: s1 :: _ :: srest =>
        match newVersionL (intercalateChar '.' (s0 :: s1 :: natDigits patchVersion :: srest)) with
        | none => none
        | some v2 => some (semverStr v2)
      | _ => none
    else some (semverStr version)

/-- `conform.GeneratePackageVersion`.  On every error path the Go function
returns the empty string together with the error. -/
def generatePackageVersion (upstreamChartVersion : String) (packageVersion : Option Int) :
    Except Unit String :=
  match packageVersion with
  | some pv =>
    match newVersion upstreamChartVersion with
    | none => .error ()
    | some chartVersion =>
      if MaxPatchNum ≤ uint64Cast pv then .error ()
      else
        let patchVersion := (PatchNumMultiplier * chartVersion.patch + uint64Cast pv) % uint64Bound
        match splitOnCharL '.' (semverChars chartVersion) with
        | s0 :: s1 :: _ :: srest =>
          match newVersionL (intercalateChar '.' (s0 :: s1 :: natDigits patchVersion :: srest)) with
          | none => .error ()
          | some v2 => .ok (semverStr v2)
        | _ => .error ()
  | none =>
    match newVersion upstreamChartVersion with
    | none => .error ()
    | some chartVersion => .ok (semverStr chartVersion)

/-! ## `pkg/pkg/wrapper.go`: the Version Selector -/

/-- One `repo.ChartVersion` entry, restricted to the fields the selector
reads (`Name`, `Version`). -/
structure ChartVersion where
  name : String
  version : String
deriving DecidableEq, Repr

/-- ASCII lowering of one character (`strings.ToLower`; all fetch-mode
strings are ASCII). -/
def lowerChar (c : Char) : Char :=
  if 65 ≤ c.toNat ∧ c.toNat ≤ 90 then Char.ofNat (c.toNat + 32) else c

def toLowerStr (s : String) : String := String.mk (s.data.map lowerChar)

/-- `stripPreRelease`: keep versions that parse and have an empty
prerelease component (parse failures are logged and dropped). -/
def stripPreRelease (versions : List ChartVersion) : List ChartVersion :=
  versions.filter fun v =>
    match newVersion v.version with
    | none => false
    | some semVer => semVer.pre == ""

/-- The stored-version scan inside `collectNonStoredVersions`:
`parsedUpstream` is `semver.NewVersion(version.Version)` (`none` when it
failed, leaving a nil pointer).  Result `none` models a runtime panic:
either `StripPackageVersion` panics on an unparsable stored version, or
`parsedVersion.String()` dereferences nil. -/
def versionIsStored (parsedUpstream : Option SemVer) :
    List ChartVersion → Option Bool
  | [] => some false
  | storedVersion :: rest =>
    match stripPackageVersion storedVersion.version with
    | none => none
    | some strippedStoredVersion =>
      match parsedUpstream with
      | none => none
      | some pv =>
        if storedVersion.version = semverStr pv then some true
        else if strippedStoredVersion = semverStr pv then some true
        else versionIsStored parsedUpstream rest

/-- The fetch-mode test guarding the early break:
`strings.ToLower(fetch)` is `""` or `"latest"`. -/
def isLatestFetch (fetch : String) : Bool :=
  toLowerStr fetch == "" || toLowerStr fetch == "latest"

/-- Loop body of `collectNonStoredVersions`, indexed by position `i`.
`none` models a runtime panic inside the loop. -/
def cnsGo (storedVersions : List ChartVersion) (fetch : String) :
    List ChartVersion → Nat → Option (List ChartVersion)
  | [], _ => some []
  | version :: rest, i =>
    match versionIsStored (newVersion version.version) storedVersions with
    | none => none
    | some stored =>
      if stored ∧ i = 0 ∧ isLatestFetch fetch then some []
      else if ¬ stored then
        if fetch = "newer" then
          match newVersion version.version with
          | none => cnsGo storedVersions fetch rest (i + 1)
          | some semVer =>
            match storedVersions with
            | [] => (cnsGo storedVersions fetch rest (i + 1)).map (version :: ·)
            | s0 :: _ =>
              match stripPackageVersion s0.version with
              | none => none
              | some strippedStoredLatest =>
                match newVersion strippedStoredLatest with
                | none => cnsGo storedVersions fetch rest (i + 1)
                | some storedLatestSemVer =>
                  if greaterThanSV semVer storedLatestSemVer then
                    (cnsGo storedVersions fetch rest (i + 1)).map (version :: ·)
                  else cnsGo storedVersions fetch rest (i + 1)
        else if fetch = "all" then
          (cnsGo storedVersions fetch rest (i + 1)).map (version :: ·)
        else some [version]
      else cnsGo storedVersions fetch rest (i + 1)

/-- `collectNonStoredVersions(versions, storedVersions, fetch)`. -/
def collectNonStoredVersions (versions storedVersions : List ChartVersion)
    (fetch : String) : Option (List ChartVersion) :=
  cnsGo storedVersions fetch versions 0

/-- One bucket of `collectTrackedVersions`: versions whose `major.minor`
matches the tracked stream, scanning the (descending) list and stopping
once `major.minor` falls below the stream. -/
def collectTrackedFor (t : String) : List ChartVersion → List ChartVersion
  | [] => []
  | version :: rest =>
    match newVersion version.version, newVersion t with
    | some semVer, some trackedSemVer =>
      if semVer.major = trackedSemVer.major ∧ semVer.minor = trackedSemVer.minor then
        version :: collectTrackedFor t rest
      else if semVer.major < trackedSemVer.major ∨
          (semVer.major = trackedSemVer.major ∧ semVer.minor < trackedSemVer.minor) then
        []
      else collectTrackedFor t rest
    | _, _ => collectTrackedFor t rest

/-- `getLatestTracked`: outer `none` models the nil-dereference panic when
an unparsable tracked entry follows a parsed one; the inner option is the
(possibly nil) `latestTracked` pointer. -/
def getLatestTracked (tracked : List String) : Option (Option SemVer) :=
  go none tracked
where
  go : Option SemVer → List String → Option (Option SemVer)
    | acc, [] => some acc
    | acc, t :: ts =>
      match newVersion t with
      | none =>
        match acc with
        | none => go none ts
        | some _ => none
      | some semVer =>
        match acc with
        | none => go (some semVer) ts
        | some latest =>
          if greaterThanSV semVer latest then go (some semVer) ts else go (some latest) ts

/-- `checkNewerUntracked`, reduced to its effect: `some ()` when no runtime
panic occurs (the returned string list is only logged).  `none` models the
nil dereferences on unparsable upstream versions or a nil
`latestTracked`. -/
def checkNewerUntracked (tracked : List String) (upstreamVersions : List ChartVersion) :
    Option Unit :=
  match getLatestTracked tracked with
  | none => none
  | some latestTracked =>
    if tracked.isEmpty then some ()
    else go latestTracked upstreamVersions
where
  go : Option SemVer → List ChartVersion → Option Unit
    | _, [] => some ()
    | latestTracked, upstreamVersion :: rest =>
      match newVersion upstreamVersion.version with
      | none => none
      | some semVer =>
        match latestTracked with
        | none => none
        | some lt =>
          if semVer.major > lt.major ∨ (semVer.major = lt.major ∧ semVer.minor > lt.minor) then
            go (some lt) rest
          else if semVer.major = lt.major ∧ semVer.minor = lt.minor then some ()
          else go (some lt) rest

/-- Outcomes of `filterVersions` distinguishable at its interface. -/
inductive FilterOutcome where
  /-- A runtime panic (nil dereference / out-of-range index). -/
  | panicked
  /-- "No versions available in upstream or all versions are marked pre-release". -/
  | noVersions
  /-- The `getStoredVersions` error, surfaced. -/
  | indexError
  deriving DecidableEq, Repr

/-- `getStoredVersions`, with the index file load abstracted as
`indexLoad`: on failure the Go function returns an empty list together
with the error. -/
def getStoredVersions (indexLoad : Except Unit (List ChartVersion)) :
    List ChartVersion × Bool :=
  match indexLoad with
  | .error _ => ([], true)
  | .ok storedVersions => (storedVersions, false)

/-- Per-stream half of the tracked branch of `filterVersions`: concatenate
the per-stream `collectNonStoredVersions` results, propagating panics. -/
def collectPerTracked (fetch : String) (upstream allStored : List ChartVersion) :
    List String → Option (List ChartVersion)
  | [] => some []
  | t :: ts =>
    match collectNonStoredVersions (collectTrackedFor t upstream)
        (collectTrackedFor t allStored) fetch with
    | none => none
    | some nonStored =>
      match collectPerTracked fetch upstream allStored ts with
      | none => none
      | some restSel => some (nonStored ++ restSel)

/-- `filterVersions(upstreamVersions, fetch, tracked)`.  Mirrors the source
order: the debug log indexes `upstreamVersions[0]` (panic on an empty
list), prereleases are stripped, `checkNewerUntracked` runs when streams
are tracked, the emptiness check follows, `getStoredVersions` is called,
and its error is examined only inside the tracked branch. -/
def filterVersions (indexLoad : Except Unit (List ChartVersion))
    (upstreamVersions : List ChartVersion) (fetch : String) (tracked : List String) :
    Except FilterOutcome (List ChartVersion) :=
  match upstreamVersions with
  | [] => .error .panicked
  | _ :: _ =>
    let stripped := stripPreRelease upstreamVersions
    let newerCheck : Option Unit :=
      if tracked.isEmpty then some () else checkNewerUntracked tracked stripped
    match newerCheck with
    | none => .error .panicked
    | some _ =>
      if stripped.isEmpty then .error .noVersions
      else
        let loaded := getStoredVersions indexLoad
        if tracked.isEmpty then
          match collectNonStoredVersions stripped loaded.1 fetch with
          | none => .error .panicked
          | some filteredVersions => .ok filteredVersions
        else
          if loaded.2 then .error .indexError
          else
            match collectPerTracked fetch stripped loaded.1 tracked with
            | none => .error .panicked
            | some filteredVersions => .ok filteredVersions

/-! ## Chart data model (`helm.sh/helm/v3/pkg/chart` as used by the engine) -/

/-- `chart.Metadata`, restricted to the fields the engine reads or writes.
Annotations model the Go `map[string]string` as an association list with
unique keys; maintainers and dependencies are opaque entries. -/
structure ChartMetadata where
  name : String := ""
  home : String := ""
  version : String := ""
  description : String := ""
  icon : String := ""
  apiVersion : String := ""
  condition : String := ""
  tags : String := ""
  appVersion : String := ""
  kubeVersion : String := ""
  chartType : String := ""
  sources : List String := []
  keywords : List String := []
  maintainers : List String := []
  dependencies : List String := []
  deprecated : Bool := false
  annotations : List (String × String) := []
deriving DecidableEq, Repr

/-- `chart.Chart`: metadata plus the raw chart files other than
`Chart.yaml` (templates, values, miscellaneous files), as name/contents
pairs. -/
structure HelmChart where
  metadata : ChartMetadata
  files : List (String × String) := []
deriving DecidableEq, Repr

/-- `ChartWrapper` from `main.go`: a chart plus its dirty bit. -/
structure ChartWrapper where
  chart : HelmChart
  modified : Bool := false
deriving DecidableEq, Repr

/-- First-match lookup in a string-keyed association list (Go map read). -/
def lookupBy {α : Type} (k : String) : List (String × α) → Option α
  | [] => none
  | (k', v) :: rest => if k' = k then some v else lookupBy k rest

/-- Replace the binding of `k` (Go map write of an existing key). -/
def replaceBy {α : Type} (k : String) (v : α) : List (String × α) → List (String × α)
  | [] => []
  | (k', w) :: rest => if k' = k then (k', v) :: rest else (k', w) :: replaceBy k v rest

/-- Delete the binding of `k` (Go `delete`). -/
def eraseBy {α : Type} (k : String) : List (String × α) → List (String × α)
  | [] => []
  | (k', w) :: rest => if k' = k then rest else (k', w) :: eraseBy k rest

/-- `conform.AnnotateChart(helmChart, annotation, value, override)`:
returns the updated chart and whether it was changed. -/
def annotateChart (helmChart : HelmChart) (ann value : String) (override : Bool) :
    HelmChart × Bool :=
  match lookupBy ann helmChart.metadata.annotations with
  | none =>
    ({ helmChart with metadata :=
        { helmChart.metadata with
          annotations := helmChart.metadata.annotations ++ [(ann, value)] } }, true)
  | some currentValue =>
    if currentValue ≠ value ∧ override then
      ({ helmChart with metadata :=
          { helmChart.metadata with
            annotations := replaceBy ann value helmChart.metadata.annotations } }, true)
    else (helmChart, false)

/-- `conform.DeannotateChart(helmChart, annotation, value)`: removes the
binding when the passed value is empty or matches exactly. -/
def deannotateChart (helmChart : HelmChart) (ann value : String) : HelmChart × Bool :=
  match lookupBy ann helmChart.metadata.annotations with
  | none => (helmChart, false)
  | some currentValue =>
    if value ≠ "" ∧ currentValue ≠ value then (helmChart, false)
    else
      ({ helmChart with metadata :=
          { helmChart.metadata with
            annotations := eraseBy ann helmChart.metadata.annotations } }, true)

/-- One step of `conform.ApplyChartAnnotations`: annotate and accumulate
the modified flag. -/
def annStep (override : Bool) (acc : HelmChart × Bool) (kv : String × String) :
    HelmChart × Bool :=
  let r := annotateChart acc.1 kv.1 kv.2 override
  (r.1, acc.2 || r.2)

/-- `conform.ApplyChartAnnotations` (override flag threaded through;
the Go map iteration is determinized by list order, which only affects the
representation of the resulting map). -/
def applyChartAnns (helmChart : HelmChart) (anns : List (String × String))
    (override : Bool) : HelmChart × Bool :=
  anns.foldl (annStep override) (helmChart, false)

/-- The scalar/list/deprecated updates of `OverlayChartMetadata` that
precede the annotation merge.  The per-field conditional writes of the
source commute, so they are expressed as one record update. -/
def overlayScalars (m overlay : ChartMetadata) : ChartMetadata :=
  { m with
    name := if overlay.name ≠ "" then overlay.name else m.name
    home := if overlay.home ≠ "" then overlay.home else m.home
    sources := if overlay.sources ≠ [] then m.sources ++ overlay.sources else m.sources
    version := if overlay.version ≠ "" then overlay.version else m.version
    description := if overlay.description ≠ "" then overlay.description else m.description
    keywords := if overlay.keywords ≠ [] then m.keywords ++ overlay.keywords else m.keywords
    maintainers := if overlay.maintainers ≠ [] then m.maintainers ++ overlay.maintainers
      else m.maintainers
    icon := if overlay.icon ≠ "" then overlay.icon else m.icon
    apiVersion := if overlay.apiVersion ≠ "" then overlay.apiVersion else m.apiVersion
    condition := if overlay.condition ≠ "" then overlay.condition else m.condition
    tags := if overlay.tags ≠ "" then overlay.tags else m.tags
    appVersion := if overlay.appVersion ≠ "" then overlay.appVersion else m.appVersion
    deprecated := m.deprecated || overlay.deprecated }

/-- The dependency/type updates of `OverlayChartMetadata` that follow the
annotation merge. -/
def overlayDepsType (m overlay : ChartMetadata) : ChartMetadata :=
  { m with
    dependencies := if overlay.dependencies ≠ [] then m.dependencies ++ overlay.dependencies
      else m.dependencies
    chartType := if overlay.chartType ≠ "" then overlay.chartType else m.chartType }

/-- `conform.OverlayChartMetadata(helmChart, overlay)`: scalar fields are
overwritten when non-empty, list fields appended when non-nil, `deprecated`
is OR'd, annotations applied with override; `KubeVersion` deliberately
skipped (commented out in the source). -/
def overlayChartMetadata (helmChart : HelmChart) (overlay : ChartMetadata) : HelmChart :=
  let withScalars : HelmChart :=
    { helmChart with metadata := overlayScalars helmChart.metadata overlay }
  let withAnns := (applyChartAnns withScalars overlay.annotations true).1
  { withAnns with metadata := overlayDepsType withAnns.metadata overlay }

/-! ## `main.go`: the Chart Integrator -/

def annotationAutoInstall : String := "catalog.cattle.io/auto-install"
def annotationCertified : String := "catalog.cattle.io/certified"
def annotationDisplayName : String := "catalog.cattle.io/display-name"
def annotationExperimental : String := "catalog.cattle.io/experimental"
def annotationFeatured : String := "catalog.cattle.io/featured"
def annotationHidden : String := "catalog.cattle.io/hidden"
def annotationKubeVersion : String := "catalog.cattle.io/kube-version"
def annotationNamespace : String := "catalog.cattle.io/namespace"
def annotationReleaseName : String := "catalog.cattle.io/release-name"

/-- The projection of a `pkg.PackageWrapper` (package configuration) read
by the integration pipeline.  `overlayFiles` is the result of
`GetOverlayFiles` (`none` = error); `iconFetch` abstracts
`icons.EnsureIconDownloaded` for this package as a function of the chart's
current icon URL (`none` = error). -/
structure PackageConfig where
  overlayFiles : Option (List (String × String)) := some []
  chartMetadata : ChartMetadata := {}
  autoInstall : String := ""
  experimental : Bool := false
  hidden : Bool := false
  displayName : String := ""
  releaseName : String := ""
  namespaceName : String := ""
  packageVersion : Int := 0
  iconFetch : String → Option String := fun _ => some ""

/-- One overlay entry applied to a chart's file list: overwrite the first
file with the same name, else append (`applyOverlayFiles` inner loop). -/
def overlayOneFile (nm data : String) : List (String × String) → List (String × String)
  | [] => [(nm, data)]
  | (n, d) :: rest =>
    if n = nm then (n, data) :: rest else (n, d) :: overlayOneFile nm data rest

/-- One overlay file applied to a chart. -/
def applyOverlayStep (ch : HelmChart) (kv : String × String) : HelmChart :=
  { ch with files := overlayOneFile kv.1 kv.2 ch.files }

/-- `applyOverlayFiles(overlayFiles, helmChart)` (map iteration
determinized by list order; overlay keys are unique). -/
def applyOverlayFiles (overlayFiles : List (String × String)) (helmChart : HelmChart) :
    HelmChart :=
  overlayFiles.foldl applyOverlayStep helmChart

/-- The annotation map assembled by `addAnnotations` before it is applied,
in the textual order of the source (Go map semantics make the order
unobservable). -/
def buildAnns (cfg : PackageConfig) (helmChart : HelmChart) : List (String × String) :=
  (if cfg.autoInstall ≠ "" then [(annotationAutoInstall, cfg.autoInstall)] else [])
    ++ (if cfg.experimental then [(annotationExperimental, "true")] else [])
    ++ (if cfg.hidden then [(annotationHidden, "true")] else [])
    ++ [(annotationCertified, "partner"),
        (annotationDisplayName, cfg.displayName),
        (annotationReleaseName, cfg.releaseName)]
    ++ (if cfg.namespaceName ≠ "" then [(annotationNamespace, cfg.namespaceName)] else [])
    ++ (if cfg.chartMetadata.kubeVersion ≠ "" then
          [(annotationKubeVersion, cfg.chartMetadata.kubeVersion)]
        else if helmChart.metadata.kubeVersion ≠ "" then
          [(annotationKubeVersion, helmChart.metadata.kubeVersion)]
        else [])

/-- `addAnnotations(packageWrapper, helmChart)`: returns the chart state
after the call together with whether an error was returned.  Note that the
generated version — empty on error — is assigned to `Metadata.Version`
*before* the error check, and that on error the assembled annotations are
never applied. -/
def addAnnotations (cfg : PackageConfig) (helmChart : HelmChart) : HelmChart × Bool :=
  if cfg.packageVersion ≠ 0 then
    match generatePackageVersion helmChart.metadata.version (some cfg.packageVersion) with
    | .error _ =>
      ({ helmChart with metadata := { helmChart.metadata with version := "" } }, true)
    | .ok generatedVersion =>
      ((applyChartAnns
          { helmChart with metadata := { helmChart.metadata with version := generatedVersion } }
          (buildAnns cfg helmChart) false).1, false)
  else ((applyChartAnns helmChart (buildAnns cfg helmChart) false).1, false)

/-- `ensureIcon(packageWrapper, chartWrapper)`: `none` = error from
`icons.EnsureIconDownloaded`. -/
def ensureIcon (cfg : PackageConfig) (chartWrapper : ChartWrapper) : Option ChartWrapper :=
  match cfg.iconFetch chartWrapper.chart.metadata.icon with
  | none => none
  | some localIconPath =>
    if chartWrapper.chart.metadata.icon ≠ "file://" ++ localIconPath then
      some { chart := { chartWrapper.chart with metadata :=
                { chartWrapper.chart.metadata with icon := "file://" ++ localIconPath } },
             modified := true }
    else some chartWrapper

/-- Failure modes of `integrateCharts` (each a distinct Go error return,
except `featuredPanic`, which models the out-of-range index panic in
`ensureFeaturedAnnotation`). -/
inductive IntegrateError where
  | overlayFilesError
  | versionError
  | iconError
  | featuredConflict
  | featuredPanic
deriving DecidableEq, Repr

/-- The application of the featured annotation to the last new chart in
`ensureFeaturedAnnotation`: `AnnotateChart` with override, the modified
flag set when the annotation actually changed. -/
def annotateFeatured (featuredAnnotationValue : String) (cw : ChartWrapper) : ChartWrapper :=
  { chart := (annotateChart cw.chart annotationFeatured featuredAnnotationValue true).1,
    modified := cw.modified ||
      (annotateChart cw.chart annotationFeatured featuredAnnotationValue true).2 }

/-- The removal of the featured annotation from an existing chart in
`ensureFeaturedAnnotation`: `DeannotateChart` with the empty value, the
modified flag set when removal actually changed the chart. -/
def deannotateFeatured (cw : ChartWrapper) : ChartWrapper :=
  { chart := (deannotateChart cw.chart annotationFeatured "").1,
    modified := cw.modified || (deannotateChart cw.chart annotationFeatured "").2 }

/-- The featured-value scan over existing charts (first loop of
`ensureFeaturedAnnotation`); `none` is the "two different values" error. -/
def scanFeaturedValue : String → List ChartWrapper → Option String
  | acc, [] => some acc
  | acc, existingChart :: rest =>
    match lookupBy annotationFeatured existingChart.chart.metadata.annotations with
    | none => scanFeaturedValue acc rest
    | some val =>
      if acc ≠ "" ∧ acc ≠ val then none else scanFeaturedValue val rest

/-- `ensureFeaturedAnnotation(existingCharts, newCharts)` — modelled as
`ensureFeatured`.  When a non-empty featured value is found,
`newCharts[len(newCharts)-1]` is indexed without an emptiness check; the
resulting out-of-range panic is the `featuredPanic` outcome. -/
def ensureFeatured (existingCharts newCharts : List ChartWrapper) :
    Except IntegrateError (List ChartWrapper × List ChartWrapper) :=
  match scanFeaturedValue "" existingCharts with
  | none => .error .featuredConflict
  | some featuredAnnotationValue =>
    if featuredAnnotationValue = "" then .ok (existingCharts, newCharts)
    else
      match newCharts.getLast? with
      | none => .error .featuredPanic
      | some lastNewChart =>
        .ok (existingCharts.map (deannotateFeatured),
          newCharts.dropLast ++ [annotateFeatured featuredAnnotationValue lastNewChart])

/-- The per-new-chart body of the `integrateCharts` loop: overlay files,
metadata overlay, annotations, icon, then `Modified = true`
unconditionally. -/
def processNewChart (cfg : PackageConfig) (ofs : List (String × String))
    (newChart : ChartWrapper) : Except IntegrateError ChartWrapper :=
  match addAnnotations cfg
      (overlayChartMetadata (applyOverlayFiles ofs newChart.chart) cfg.chartMetadata) with
  | (_, true) => .error .versionError
  | (c3, false) =>
    match ensureIcon cfg { chart := c3, modified := newChart.modified } with
    | none => .error .iconError
    | some cw => .ok { cw with modified := true }

def processNewCharts (cfg : PackageConfig) (ofs : List (String × String)) :
    List ChartWrapper → Except IntegrateError (List ChartWrapper)
  | [] => .ok []
  | newChart :: rest =>
    match processNewChart cfg ofs newChart with
    | .error e => .error e
    | .ok newChart' =>
      match processNewCharts cfg ofs rest with
      | .error e => .error e
      | .ok rest' => .ok (newChart' :: rest')

/-- `integrateCharts(packageWrapper, existingCharts, newCharts)`: returns
the final states of both lists on success. -/
def integrateCharts (cfg : PackageConfig) (existingCharts newCharts : List ChartWrapper) :
    Except IntegrateError (List ChartWrapper × List ChartWrapper) :=
  match cfg.overlayFiles with
  | none => .error .overlayFilesError
  | some ofs =>
    match processNewCharts cfg ofs newCharts with
    | .error e => .error e
    | .ok newCharts' => ensureFeatured existingCharts newCharts'

/-! ## `pkg/validate/modification.go`: the Release Validator

Directory trees are finite maps from slash-separated relative paths to file
contents, as association lists.  A file's content is either opaque bytes, a
serialized `Chart.yaml` (the chart codec's metadata marshalling is
deterministic and injective, so checksum equality of two `Chart.yaml`
files is equality of the metadata), or a `.tgz` chart archive (a chart
value plus a residue distinguishing byte-level re-serializations of the
same chart, e.g. differing gzip timestamps).  SHA-256 checksum equality is
modelled as content equality. -/

inductive FileContent where
  | bytes (data : String)
  | chartYaml (m : ChartMetadata)
  | archive (c : HelmChart) (raw : Nat)
deriving DecidableEq, Repr

/-- A directory tree: relative path → file content. -/
@[reducible] def DirTree : Type := List (String × FileContent)

def isPrefixCL : List Char → List Char → Bool
  | [], _ => true
  | _ :: _, [] => false
  | a :: as, b :: bs => a = b && isPrefixCL as bs

def isSuffixCL (suf l : List Char) : Bool := isPrefixCL suf.reverse l.reverse

/-- `strings.HasSuffix`. -/
def strEndsWith (p suf : String) : Bool := isSuffixCL suf.data p.data

/-- `strings.HasPrefix`. -/
def strStartsWith (p pre : String) : Bool := isPrefixCL pre.data p.data

/-- The proper directory prefixes of a slash-separated path's components:
`a/b/c` ↦ `[a, a/b]`. -/
def properPrefixJoins : List (List Char) → List (List Char)
  | [] => []
  | [_] => []
  | c :: rest => c :: (properPrefixJoins rest).map fun q => c ++ '/' :: q

/-- The ancestor directories of a relative file path. -/
def ancestorDirs (p : String) : List String :=
  (properPrefixJoins (splitOnCharL '/' p.data)).map String.mk

/-- A path is skipped when `filepath.Walk` pruned one of its ancestor
directories via the `skipDirs` list. -/
def skippedFile (skipDirs : List String) (p : String) : Bool :=
  (ancestorDirs p).any fun d => skipDirs.contains d

/-- `checkedSet` membership after the first walk: the visited files of the
reference tree and every visited directory (a directory is recorded even
when it is itself in `skipDirs`; its children are not). -/
def checkedSet (t1 : DirTree) (skipDirs : List String) (p : String) : Bool :=
  !skippedFile skipDirs p &&
    t1.any fun e => e.1 == p || (ancestorDirs e.1).contains p

inductive FileClass where
  | unchanged
  | modified
  | removed
deriving DecidableEq, Repr

/-- Classification of one reference-tree file by
`findRemovalAndModification`: missing from the working tree → removed;
differing checksums on a `.tgz` → chart-aware comparison; differing
checksums otherwise → modified; equal checksums → unchanged. -/
def classifyEntry (tgzMatch : FileContent → FileContent → Bool) (t2 : DirTree)
    (e : String × FileContent) : FileClass :=
  match lookupBy e.1 t2 with
  | none => .removed
  | some c2 =>
    if e.2 ≠ c2 ∧ strEndsWith e.1 ".tgz" then
      if tgzMatch e.2 c2 then .unchanged else .modified
    else if e.2 ≠ c2 then .modified
    else .unchanged

/-- `DirectoryComparison` (paths recorded relative to the tree roots). -/
structure DirectoryComparison where
  unchanged : List String
  modified : List String
  added : List String
  removed : List String
deriving DecidableEq, Repr

/-- `DirectoryComparison.Match()`. -/
def DirectoryComparison.isMatch (d : DirectoryComparison) : Bool :=
  d.modified.length + d.added.length + d.removed.length == 0

/-- `compareDirectories`, parametrized by the `.tgz` matcher so that the
nested comparison inside `matchHelmCharts` can be expressed without mutual
recursion.  The first walk classifies the reference tree's files; the
second records working-tree files not visited by the first as added. -/
def compareDirectoriesWith (tgzMatch : FileContent → FileContent → Bool)
    (t1 t2 : DirTree) (skipDirs : List String) : DirectoryComparison :=
  let visible := t1.filter fun e => !skippedFile skipDirs e.1
  { unchanged := (visible.filter fun e => classifyEntry tgzMatch t2 e == .unchanged).map Prod.fst
    modified := (visible.filter fun e => classifyEntry tgzMatch t2 e == .modified).map Prod.fst
    removed := (visible.filter fun e => classifyEntry tgzMatch t2 e == .removed).map Prod.fst
    added := ((t2.filter fun e =>
        !skippedFile skipDirs e.1 && !checkedSet t1 skipDirs e.1).map Prod.fst) }

/-- The normalization of `prepareTgzForComparison`: delete every annotation
whose key has the `catalog.cattle.io` prefix, and reset `deprecated`. -/
def normalizeChart (c : HelmChart) : HelmChart :=
  { c with metadata :=
      { c.metadata with
        annotations := c.metadata.annotations.filter
          fun kv => !strStartsWith kv.1 "catalog.cattle.io"
        deprecated := false } }

/-- `conform.ExportChartDirectory` after `chartutil.Save`: the exported
tree holds `Chart.yaml` marshalled from the metadata plus the chart's raw
files. -/
def exportChartDir (c : HelmChart) : DirTree :=
  ("Chart.yaml", .chartYaml c.metadata) :: c.files.map fun f => (f.1, .bytes f.2)

/-- The `.tgz` matcher applied inside an exported chart directory.  Chart
files are opaque bytes in this model, so `loader.LoadArchive` fails on
them and `matchHelmCharts` reports a mismatch, which is `false` here. -/
def matchPlainOnly (_ _ : FileContent) : Bool := false

/-- `matchHelmCharts(upstreamPath, updatePath)`: load both archives (a
`prepareTgzForComparison` failure yields `false`), normalize, export, and
compare the exported trees with an empty skip list. -/
def matchHelmCharts (c1 c2 : FileContent) : Bool :=
  match c1, c2 with
  | .archive a _, .archive b _ =>
    (compareDirectoriesWith matchPlainOnly
        (exportChartDir (normalizeChart a)) (exportChartDir (normalizeChart b)) []).isMatch
  | _, _ => false

/-- `compareDirectories(upstreamPath, updatePath, skipDirs)`. -/
def compareDirectories (t1 t2 : DirTree) (skipDirs : List String) : DirectoryComparison :=
  compareDirectoriesWith matchHelmCharts t1 t2 skipDirs

/-! ## Parser correctness on plain numeric versions -/

/-- The rendered characters of a plain `a.b.c` version. -/
def ver3Chars (a b c : Nat) : List Char :=
  natDigits a ++ ('.' :: (natDigits b ++ ('.' :: natDigits c)))

theorem semverChars_plain (a b c : Nat) :
    semverChars ⟨a, b, c, "", ""⟩ = ver3Chars a b c := by
  simp [semverChars, ver3Chars]

theorem mem_ver3Chars {a b c : Nat} {ch : Char} (h : ch ∈ ver3Chars a b c) :
    isDigitChar ch = true ∨ ch = '.' := by
  simp only [ver3Chars, List.mem_append, List.mem_cons] at h
  rcases h with h | h | h | h | h
  · exact Or.inl (natDigits_all_digit a ch h)
  · exact Or.inr h
  · exact Or.inl (natDigits_all_digit b ch h)
  · exact Or.inr h
  · exact Or.inl (natDigits_all_digit c ch h)

theorem plus_not_mem_ver3Chars (a b c : Nat) : '+' ∉ ver3Chars a b c := by
  intro h
  rcases mem_ver3Chars h with hd | hdot
  · exact (isDigitChar_ne hd).2.2.1 rfl
  · exact absurd hdot (by decide)

theorem dash_not_mem_ver3Chars (a b c : Nat) : '-' ∉ ver3Chars a b c := by
  intro h
  rcases mem_ver3Chars h with hd | hdot
  · exact (isDigitChar_ne hd).2.1 rfl
  · exact absurd hdot (by decide)

theorem stripV_ver3Chars (a b c : Nat) : stripV (ver3Chars a b c) = ver3Chars a b c := by
  have hne := natDigits_ne_nil a
  unfold ver3Chars
  match hd : natDigits a with
  | [] => exact absurd hd hne
  | d0 :: rest =>
    have hd0 : isDigitChar d0 = true := by
      apply natDigits_all_digit a
      rw [hd]; exact List.mem_cons_self _ _
    have hv : d0 ≠ 'v' := (isDigitChar_ne hd0).2.2.2.1
    simp only [List.cons_append]
    unfold stripV
    split
    · rename_i heq
      injection heq with h1 _
      exact absurd h1 hv
    · rfl

theorem splitDots_ver3Chars (a b c : Nat) :
    splitOnCharL '.' (ver3Chars a b c) = [natDigits a, natDigits b, natDigits c] := by
  have hnota : '.' ∉ natDigits a := fun h => (isDigitChar_ne (natDigits_all_digit a _ h)).1 rfl
  have hnotb : '.' ∉ natDigits b := fun h => (isDigitChar_ne (natDigits_all_digit b _ h)).1 rfl
  have hnotc : '.' ∉ natDigits c := fun h => (isDigitChar_ne (natDigits_all_digit c _ h)).1 rfl
  unfold ver3Chars
  rw [splitOnCharL_append _ hnota, splitOnCharL_append _ hnotb, splitOnCharL_not_mem hnotc]

theorem parseSeg_natDigits {n : Nat} (h : n < uint64Bound) :
    parseSeg (natDigits n) = some n := by
  have hne := natDigits_ne_nil n
  have hall : (natDigits n).all isDigitChar = true := by
    rw [List.all_eq_true]; exact natDigits_all_digit n
  simp only [parseSeg, List.isEmpty_iff, hne, if_false, hall, if_true,
    parseDigitsNum_natDigits, h, if_true]

theorem parseSeg_lt {l : List Char} {n : Nat} (h : parseSeg l = some n) : n < uint64Bound := by
  unfold parseSeg at h
  split at h
  · exact absurd h (by simp)
  · split at h
    · split at h
      · rename_i hlt
        injection h with h
        omega
      · exact absurd h (by simp)
    · exact absurd h (by simp)

theorem newVersionL_ver3Chars {a b c : Nat}
    (ha : a < uint64Bound) (hb : b < uint64Bound) (hc : c < uint64Bound) :
    newVersionL (ver3Chars a b c) = some ⟨a, b, c, "", ""⟩ := by
  have htake : (ver3Chars a b c).takeWhile (fun ch => ch ≠ '-') = ver3Chars a b c := by
    rw [List.takeWhile_eq_self_iff]
    intro ch hch
    simp only [ne_eq, decide_eq_true_eq]
    rintro rfl
    exact dash_not_mem_ver3Chars a b c hch
  have hdrop : (ver3Chars a b c).dropWhile (fun ch => ch ≠ '-') = [] := by
    rw [List.dropWhile_eq_nil_iff]
    intro ch hch
    simp only [ne_eq, decide_eq_true_eq]
    rintro rfl
    exact dash_not_mem_ver3Chars a b c hch
  unfold newVersionL
  rw [stripV_ver3Chars, splitOnCharL_not_mem (plus_not_mem_ver3Chars a b c)]
  show parseMain (ver3Chars a b c) "" = _
  unfold parseMain
  rw [hdrop, htake]
  unfold parseNum
  rw [splitDots_ver3Chars]
  simp only [List.map_cons, List.map_nil,
    parseSeg_natDigits ha, parseSeg_natDigits hb, parseSeg_natDigits hc]

theorem intercalate_three (A B C : List Char) :
    intercalateChar '.' [A, B, C] = A ++ '.' :: (B ++ '.' :: C) := rfl

theorem newVersion_mk (l : List Char) : newVersion (String.mk l) = newVersionL l := rfl

theorem parseNum_bounds {numPart : List Char} {pre md : String} {v : SemVer}
    (h : parseNum numPart pre md = some v) :
    v.major < uint64Bound ∧ v.minor < uint64Bound ∧ v.patch < uint64Bound := by
  have hbound : (0 : Nat) < uint64Bound := by decide
  have hmem : ∀ x ∈ (splitOnCharL '.' numPart).map parseSeg,
      ∀ k : Nat, x = some k → k < uint64Bound := by
    intro x hx k hk
    rcases List.mem_map.mp hx with ⟨y, _, hy⟩
    exact parseSeg_lt (show parseSeg y = some k by rw [hy, hk])
  unfold parseNum at h
  split at h
  · rename_i a hL
    injection h with h
    subst h
    exact ⟨hmem _ (by rw [hL]; exact List.mem_cons_self _ _) a rfl, hbound, hbound⟩
  · rename_i a b hL
    injection h with h
    subst h
    refine ⟨hmem _ (by rw [hL]; exact List.mem_cons_self _ _) a rfl,
      hmem _ (by rw [hL]; simp) b rfl, hbound⟩
  · rename_i a b c hL
    injection h with h
    subst h
    refine ⟨hmem _ (by rw [hL]; exact List.mem_cons_self _ _) a rfl,
      hmem _ (by rw [hL]; simp) b rfl, hmem _ (by rw [hL]; simp) c rfl⟩
  · exact absurd h (by simp)

theorem parseMain_bounds {core : List Char} {md : String} {v : SemVer}
    (h : parseMain core md = some v) :
    v.major < uint64Bound ∧ v.minor < uint64Bound ∧ v.patch < uint64Bound := by
  unfold parseMain at h
  split at h
  · exact parseNum_bounds h
  · split at h
    · exact parseNum_bounds h
    · exact absurd h (by simp)

/-- Components of any successfully parsed version are within `uint64`
range (defaulted components are `0`). -/
theorem newVersionL_bounds {l : List Char} {v : SemVer} (h : newVersionL l = some v) :
    v.major < uint64Bound ∧ v.minor < uint64Bound ∧ v.patch < uint64Bound := by
  unfold newVersionL at h
  split at h
  · exact parseMain_bounds h
  · split at h
    · exact parseMain_bounds h
    · exact absurd h (by simp)
  · exact absurd h (by simp)

/-! ## Evaluation of encoding and stripping on plain versions -/

theorem uint64Cast_small {p : Int} (hp0 : 0 ≤ p) (hp1 : p ≤ 98) : uint64Cast p ≤ 98 := by
  unfold uint64Cast uint64Bound
  omega

theorem generatePackageVersion_plain {s : String} {a b c : Nat} {p : Int}
    (hparse : newVersion s = some ⟨a, b, c, "", ""⟩) (hp0 : 0 ≤ p) (hp1 : p ≤ 98)
    (hc : PatchNumMultiplier * c + uint64Cast p < uint64Bound) :
    generatePackageVersion s (some p) =
      .ok (String.mk (ver3Chars a b (PatchNumMultiplier * c + uint64Cast p))) := by
  obtain ⟨ha, hb, _⟩ := newVersionL_bounds (l := s.data) hparse
  have hcast : uint64Cast p ≤ 98 := uint64Cast_small hp0 hp1
  have hnot : ¬ MaxPatchNum ≤ uint64Cast p := by unfold MaxPatchNum; omega
  have hparseNew : newVersionL
      (natDigits a ++ ('.' :: (natDigits b ++ ('.' ::
        natDigits (PatchNumMultiplier * c + uint64Cast p))))) =
      some ⟨a, b, PatchNumMultiplier * c + uint64Cast p, "", ""⟩ :=
    newVersionL_ver3Chars ha hb hc
  unfold generatePackageVersion
  rw [hparse]
  simp only [if_neg hnot, Nat.mod_eq_of_lt hc, semverChars_plain, splitDots_ver3Chars,
    intercalateChar, hparseNew, semverStr]

theorem stripPackageVersion_plain {a b q : Nat}
    (ha : a < uint64Bound) (hb : b < uint64Bound) (hq : q < uint64Bound)
    (h100 : PatchNumMultiplier ≤ q) :
    stripPackageVersion (String.mk (ver3Chars a b q)) =
      some (String.mk (ver3Chars a b ((q - q % 2) / PatchNumMultiplier))) := by
  have hdivlt : (q - q % 2) / PatchNumMultiplier < uint64Bound := by
    have h1 : (q - q % 2) / PatchNumMultiplier ≤ q - q % 2 := Nat.div_le_self _ _
    omega
  have hparseNew : newVersionL
      (natDigits a ++ ('.' :: (natDigits b ++ ('.' ::
        natDigits ((q - q % 2) / PatchNumMultiplier))))) =
      some ⟨a, b, (q - q % 2) / PatchNumMultiplier, "", ""⟩ :=
    newVersionL_ver3Chars ha hb hdivlt
  unfold stripPackageVersion
  rw [newVersion_mk, newVersionL_ver3Chars ha hb hq]
  simp only [if_pos h100, semverChars_plain, splitDots_ver3Chars,
    intercalateChar, hparseNew, semverStr]

/-! ## Claim C1 -/

/-- Claim C1, counterexample: for the upstream version `1.0.0` and package
version `5`, encoding yields `1.0.5` (patch `0*100+5 = 5 < 100`), and
stripping `1.0.5` leaves it unchanged — the original patch number `0` is
not recovered, so the round-trip fails. -/
theorem c1_counterexample :
    generatePackageVersion "1.0.0" (some 5) = .ok "1.0.5" ∧
      stripPackageVersion "1.0.5" = some "1.0.5" ∧ ("1.0.5" : String) ≠ "1.0.0" :=
  ⟨rfl, rfl, by decide⟩

/-- Claim C1 (amended): for an upstream version with no prerelease or build
metadata whose patch number is at least 1 (so the encoded patch is at least
100) and a package version `p` in `[0, 98]` (the code rejects `p = 99`,
since its check is `packageVersion >= MaxPatchNum` with `MaxPatchNum =
99`), with the encoded patch within `uint64` range, stripping the encoded
version recovers the (normalized) original version, and with it the
original patch number. -/
theorem c1_roundtrip_amended (s : String) (sv : SemVer) (p : Int)
    (hparse : newVersion s = some sv) (hpre : sv.pre = "") (hmeta : sv.metadata = "")
    (hpatch : 1 ≤ sv.patch) (hp0 : 0 ≤ p) (hp1 : p ≤ 98)
    (hbound : PatchNumMultiplier * sv.patch + 98 < uint64Bound) :
    ∃ enc, generatePackageVersion s (some p) = .ok enc ∧
      stripPackageVersion enc = some (semverStr sv) := by
  obtain ⟨a, b, c, pre, md⟩ := sv
  simp only at hpre hmeta hpatch hbound
  subst hpre
  subst hmeta
  obtain ⟨ha, hb, hc⟩ := newVersionL_bounds (l := s.data) hparse
  have hcast : uint64Cast p ≤ 98 := uint64Cast_small hp0 hp1
  have hpvlt : PatchNumMultiplier * c + uint64Cast p < uint64Bound := by
    unfold PatchNumMultiplier at hbound ⊢
    omega
  refine ⟨String.mk (ver3Chars a b (PatchNumMultiplier * c + uint64Cast p)),
    generatePackageVersion_plain hparse hp0 hp1 hpvlt, ?_⟩
  have h100 : PatchNumMultiplier ≤ PatchNumMultiplier * c + uint64Cast p := by
    unfold PatchNumMultiplier
    omega
  rw [stripPackageVersion_plain ha hb hpvlt h100]
  have harith : (PatchNumMultiplier * c + uint64Cast p -
      (PatchNumMultiplier * c + uint64Cast p) % 2) / PatchNumMultiplier = c := by
    unfold PatchNumMultiplier
    omega
  rw [harith]
  simp only [semverStr, semverChars_plain]

/-- Witness for the amended C1 at `1.2.3` with package version `45`:
encoding yields `1.2.345` and stripping recovers `1.2.3`. -/
theorem c1_roundtrip_amended_witness :
    ∃ enc, generatePackageVersion "1.2.3" (some 45) = .ok enc ∧
      stripPackageVersion enc = some (semverStr ⟨1, 2, 3, "", ""⟩) :=
  c1_roundtrip_amended "1.2.3" ⟨1, 2, 3, "", ""⟩ 45 rfl rfl rfl
    (by decide) (by decide) (by decide) (by decide)

/-! ## Claim C7 -/

/-- Claim C7, counterexample: upstream string `v1.2.3` is counted as
stored by `[1.2.3]`, although the stored raw string differs from the
upstream string and its package-version-stripped form does too — the code
compares against the parsed-and-reprinted upstream string, not the raw
one. -/
theorem c7_counterexample :
    versionIsStored (newVersion "v1.2.3") [⟨"x", "1.2.3"⟩] = some true ∧
      ("1.2.3" : String) ≠ "v1.2.3" ∧
      stripPackageVersion "1.2.3" = some "1.2.3" :=
  ⟨rfl, by decide, rfl⟩

/-- Claim C7 (amended): provided the upstream version parses and no stored
version makes `StripPackageVersion` panic, a stored version `s` counts as
found exactly when `s`'s raw string equals the *normalized*
(parsed-and-reprinted) upstream version string, or stripping `s` yields
that normalized string. -/
theorem c7_stored_match_amended (storedVersions : List ChartVersion) (u : String)
    (pu : SemVer) (hu : newVersion u = some pu)
    (hstored : ∀ s ∈ storedVersions, (stripPackageVersion s.version).isSome) :
    versionIsStored (newVersion u) storedVersions =
      some (storedVersions.any fun s =>
        s.version == semverStr pu || stripPackageVersion s.version == some (semverStr pu)) := by
  induction storedVersions with
  | nil => simp [versionIsStored]
  | cons s rest ih =>
    have hs : (stripPackageVersion s.version).isSome :=
      hstored s (List.mem_cons_self _ _)
    obtain ⟨str, hstr⟩ := Option.isSome_iff_exists.mp hs
    have hrest : ∀ t ∈ rest, (stripPackageVersion t.version).isSome := fun t ht =>
      hstored t (List.mem_cons_of_mem _ ht)
    rw [hu] at ih ⊢
    unfold versionIsStored
    simp only [hstr]
    by_cases h1 : s.version = semverStr pu
    · simp [h1]
    · rw [if_neg h1]
      by_cases h2 : str = semverStr pu
      · have hb2 : (stripPackageVersion s.version == some (semverStr pu)) = true := by
          rw [hstr, h2]; simp
        simp [h2, hb2]
      · have hb1 : (s.version == semverStr pu) = false := by
          simp [h1]
        have hb2 : (stripPackageVersion s.version == some (semverStr pu)) = false := by
          rw [hstr]; simp [h2]
        rw [if_neg h2, ih hrest]
        simp [hb1, hb2]

/-- Witness for the amended C7: stored `1.2.300` matches upstream `1.2.3`
via its stripped form. -/
theorem c7_stored_match_amended_witness :
    versionIsStored (newVersion "1.2.3") [⟨"x", "1.2.300"⟩] =
      some (([⟨"x", "1.2.300"⟩] : List ChartVersion).any fun s =>
        s.version == semverStr ⟨1, 2, 3, "", ""⟩ ||
          stripPackageVersion s.version == some (semverStr ⟨1, 2, 3, "", ""⟩)) :=
  c7_stored_match_amended [⟨"x", "1.2.300"⟩] "1.2.3" ⟨1, 2, 3, "", ""⟩ rfl
    (by intro s hs; simp at hs; subst hs; decide)

/-! ## Claim C6 -/

theorem cnsGo_latest_head {storedVersions : List ChartVersion} {v0 : ChartVersion}
    {rest : List ChartVersion} {fetch : String} {sel : List ChartVersion}
    (h1 : isLatestFetch fetch = true) (h2 : fetch ≠ "newer") (h3 : fetch ≠ "all")
    (hsel : cnsGo storedVersions fetch (v0 :: rest) 0 = some sel) :
    sel = if versionIsStored (newVersion v0.version) storedVersions = some true
      then [] else [v0] := by
  unfold cnsGo at hsel
  cases hstored : versionIsStored (newVersion v0.version) storedVersions with
  | none => rw [hstored] at hsel; exact absurd hsel (by simp)
  | some b =>
    rw [hstored] at hsel
    cases b with
    | true =>
      simp only [h1] at hsel
      simp at hsel
      rw [if_pos rfl]
      exact hsel
    | false =>
      simp only [h1, h2, h3] at hsel
      simp [h2, h3] at hsel
      rw [if_neg (by simp)]
      exact hsel.symm

/-- Claim C6: in fetch mode `latest` (or unset), for a non-empty upstream
list the selector returns the empty list when the newest upstream version
(index 0) is already stored, and otherwise exactly the newest unstored
version, namely that first element. -/
theorem c6_latest_mode (versions storedVersions : List ChartVersion) (v0 : ChartVersion)
    (rest : List ChartVersion) (fetch : String) (sel : List ChartVersion)
    (hv : versions = v0 :: rest) (hfetch : fetch = "" ∨ fetch = "latest")
    (hsel : collectNonStoredVersions versions storedVersions fetch = some sel) :
    sel = if versionIsStored (newVersion v0.version) storedVersions = some true
      then [] else [v0] := by
  subst hv
  rcases hfetch with rfl | rfl
  · exact cnsGo_latest_head (by decide) (by decide) (by decide) hsel
  · exact cnsGo_latest_head (by decide) (by decide) (by decide) hsel

/-- Witness for C6, the spec's own example: upstream
`[2.1.0, 2.0.5, 1.9.0]`, stored `[2.0.5]`, mode `latest` selects exactly
`[2.1.0]`. -/
theorem c6_latest_mode_witness :
    ([⟨"x", "2.1.0"⟩] : List ChartVersion) =
      if versionIsStored (newVersion "2.1.0") [⟨"x", "2.0.5"⟩] = some true
        then [] else [⟨"x", "2.1.0"⟩] :=
  c6_latest_mode [⟨"x", "2.1.0"⟩, ⟨"x", "2.0.5"⟩, ⟨"x", "1.9.0"⟩] [⟨"x", "2.0.5"⟩]
    ⟨"x", "2.1.0"⟩ [⟨"x", "2.0.5"⟩, ⟨"x", "1.9.0"⟩] "latest" [⟨"x", "2.1.0"⟩]
    rfl (Or.inr rfl) rfl

/-! ## Claim C5 -/

theorem cnsGo_newer_sound (s0 : ChartVersion) (srest : List ChartVersion) :
    ∀ (versions : List ChartVersion) (i : Nat) (sel : List ChartVersion),
      cnsGo (s0 :: srest) "newer" versions i = some sel →
      ∀ v ∈ sel, ∃ sv st m, newVersion v.version = some sv ∧
        stripPackageVersion s0.version = some st ∧ newVersion st = some m ∧
        compareSemVer sv m = .gt := by
  intro versions
  induction versions with
  | nil =>
    intro i sel hsel v hv
    unfold cnsGo at hsel
    injection hsel with h
    subst h
    exact absurd hv (List.not_mem_nil v)
  | cons v0 rest ih =>
    intro i sel hsel v hv
    unfold cnsGo at hsel
    cases hstored : versionIsStored (newVersion v0.version) (s0 :: srest) with
    | none => rw [hstored] at hsel; exact absurd hsel (by simp)
    | some b =>
      rw [hstored] at hsel
      cases b with
      | true =>
        have hlf : isLatestFetch "newer" = false := by decide
        simp only [hlf] at hsel
        simp at hsel
        exact ih (i + 1) sel hsel v hv
      | false =>
        simp at hsel
        cases hp : newVersion v0.version with
        | none =>
          simp only [hp] at hsel
          exact ih (i + 1) sel hsel v hv
        | some semVer =>
          simp only [hp] at hsel
          cases hstrip : stripPackageVersion s0.version with
          | none => simp only [hstrip] at hsel; exact absurd hsel (by simp)
          | some strippedLatest =>
            simp only [hstrip] at hsel
            cases hp2 : newVersion strippedLatest with
            | none =>
              simp only [hp2] at hsel
              rw [← hstrip]
              exact ih (i + 1) sel hsel v hv
            | some storedLatest =>
              simp only [hp2] at hsel
              by_cases hgt : greaterThanSV semVer storedLatest = true
              · rw [if_pos hgt] at hsel
                cases hrec : cnsGo (s0 :: srest) "newer" rest (i + 1) with
                | none => rw [hrec] at hsel; exact absurd hsel (by simp)
                | some sel2 =>
                  rw [hrec] at hsel
                  simp at hsel
                  subst hsel
                  rcases List.mem_cons.mp hv with rfl | hv2
                  · exact ⟨semVer, strippedLatest, storedLatest, hp, rfl, hp2,
                      of_decide_eq_true hgt⟩
                  · rw [← hstrip]
                    exact ih (i + 1) sel2 hrec v hv2
              · rw [if_neg hgt] at hsel
                rw [← hstrip]
                exact ih (i + 1) sel hsel v hv

/-- Claim C5, counterexample: with the stored list not ordered
newest-first (`[1.0.0, 5.0.0]`), `newer` mode compares against the *first*
stored version only, and selects upstream `2.0.0` although its semantic
value is below that of the newest stored version `5.0.0`. -/
theorem c5_counterexample :
    collectNonStoredVersions [⟨"x", "2.0.0"⟩] [⟨"x", "1.0.0"⟩, ⟨"x", "5.0.0"⟩] "newer" =
        some [⟨"x", "2.0.0"⟩] ∧
      (⟨"x", "5.0.0"⟩ : ChartVersion) ∈
        ([⟨"x", "1.0.0"⟩, ⟨"x", "5.0.0"⟩] : List ChartVersion) ∧
      stripPackageVersion "5.0.0" = some "5.0.0" ∧
      newVersion "5.0.0" = some ⟨5, 0, 0, "", ""⟩ ∧
      newVersion "2.0.0" = some ⟨2, 0, 0, "", ""⟩ ∧
      compareSemVer ⟨2, 0, 0, "", ""⟩ ⟨5, 0, 0, "", ""⟩ = .lt :=
  ⟨rfl, by decide, rfl, rfl, rfl, by decide⟩

/-- Claim C5 (amended): in fetch mode `newer`, with a non-empty stored
list, every selected version's parsed semantic value is strictly greater
than the parsed, package-version-stripped value of the *first* stored
version — the newest one when the stored list is ordered newest-first, as
the persisted index is. -/
theorem c5_newer_monotonic_amended (versions : List ChartVersion) (s0 : ChartVersion)
    (srest sel : List ChartVersion)
    (hsel : collectNonStoredVersions versions (s0 :: srest) "newer" = some sel) :
    ∀ v ∈ sel, ∃ sv st m, newVersion v.version = some sv ∧
      stripPackageVersion s0.version = some st ∧ newVersion st = some m ∧
      compareSemVer sv m = .gt :=
  cnsGo_newer_sound s0 srest versions 0 sel hsel

/-- Witness for the amended C5: upstream `[2.1.0, 2.0.5, 1.9.0]`, stored
`[2.0.5]`, mode `newer` selects `2.1.0`, which is strictly greater than
the stored `2.0.5`. -/
theorem c5_newer_monotonic_amended_witness :
    ∃ sv st m, newVersion "2.1.0" = some sv ∧
      stripPackageVersion "2.0.5" = some st ∧ newVersion st = some m ∧
      compareSemVer sv m = .gt :=
  c5_newer_monotonic_amended [⟨"x", "2.1.0"⟩, ⟨"x", "2.0.5"⟩, ⟨"x", "1.9.0"⟩]
    ⟨"x", "2.0.5"⟩ [] [⟨"x", "2.1.0"⟩] rfl ⟨"x", "2.1.0"⟩ (by decide)

/-! ## Claim C10 -/

/-- Claim C10: in `filterVersions`, the `getStoredVersions` error flag is
examined only inside the tracked-streams branch.  With no tracked release
streams, a failing index load (which yields an empty stored list plus an
error) produces exactly the same outcome as a successful load of an empty
stored list: the error is dropped and selection proceeds as if nothing
were stored, so already-stored versions can be selected again. -/
theorem c10_index_error_ignored_untracked :
    ∀ (upstreamVersions : List ChartVersion) (fetch : String),
      filterVersions (.error ()) upstreamVersions fetch [] =
        filterVersions (.ok []) upstreamVersions fetch [] := by
  intro upstreamVersions fetch
  cases upstreamVersions with
  | nil => rfl
  | cons u rest => rfl

/-! ## Association-list and annotation lemmas -/

theorem lookupBy_cons {α : Type} (k k' : String) (w : α) (rest : List (String × α)) :
    lookupBy k ((k', w) :: rest) = if k' = k then some w else lookupBy k rest := rfl

theorem replaceBy_cons {α : Type} (a k' : String) (v w : α) (rest : List (String × α)) :
    replaceBy a v ((k', w) :: rest) =
      if k' = a then (k', v) :: rest else (k', w) :: replaceBy a v rest := rfl

theorem eraseBy_cons {α : Type} (a k' : String) (w : α) (rest : List (String × α)) :
    eraseBy a ((k', w) :: rest) =
      if k' = a then rest else (k', w) :: eraseBy a rest := rfl

theorem lookupBy_append_ne {α : Type} {k a : String} (v : α) (l : List (String × α))
    (h : a ≠ k) : lookupBy k (l ++ [(a, v)]) = lookupBy k l := by
  induction l with
  | nil => simp [lookupBy_cons, h, lookupBy]
  | cons x xs ih =>
    obtain ⟨k', w⟩ := x
    rw [List.cons_append, lookupBy_cons, lookupBy_cons, ih]

theorem lookupBy_append_none {α : Type} {k : String} (v : α) {l : List (String × α)}
    (h : lookupBy k l = none) : lookupBy k (l ++ [(k, v)]) = some v := by
  induction l with
  | nil => simp [lookupBy_cons]
  | cons x xs ih =>
    obtain ⟨k', w⟩ := x
    rw [lookupBy_cons] at h
    rw [List.cons_append, lookupBy_cons]
    by_cases hk : k' = k
    · simp [hk] at h
    · simp only [hk, if_false] at h ⊢
      exact ih h

theorem lookupBy_replaceBy_ne {α : Type} {k a : String} (v : α) (l : List (String × α))
    (h : a ≠ k) : lookupBy k (replaceBy a v l) = lookupBy k l := by
  induction l with
  | nil => rfl
  | cons x xs ih =>
    obtain ⟨k', w⟩ := x
    rw [replaceBy_cons]
    by_cases hk : k' = a
    · rw [if_pos hk, lookupBy_cons, lookupBy_cons, hk, if_neg h, if_neg h]
    · rw [if_neg hk, lookupBy_cons, lookupBy_cons, ih]

theorem lookupBy_replaceBy_self {α : Type} {k : String} (v : α) {l : List (String × α)}
    {cur : α} (h : lookupBy k l = some cur) : lookupBy k (replaceBy k v l) = some v := by
  induction l with
  | nil => simp [lookupBy] at h
  | cons x xs ih =>
    obtain ⟨k', w⟩ := x
    rw [lookupBy_cons] at h
    rw [replaceBy_cons]
    by_cases hk : k' = k
    · rw [if_pos hk, lookupBy_cons, if_pos hk]
    · rw [if_neg hk] at h
      rw [if_neg hk, lookupBy_cons, if_neg hk]
      exact ih h

theorem lookupBy_not_mem_keys {α : Type} {k : String} {l : List (String × α)}
    (h : k ∉ l.map Prod.fst) : lookupBy k l = none := by
  induction l with
  | nil => rfl
  | cons x xs ih =>
    obtain ⟨k', w⟩ := x
    simp only [List.map_cons, List.mem_cons, not_or] at h
    rw [lookupBy_cons, if_neg (fun he => h.1 he.symm)]
    exact ih h.2

theorem lookupBy_eraseBy_nodup {α : Type} {k : String} {l : List (String × α)}
    (h : (l.map Prod.fst).Nodup) : lookupBy k (eraseBy k l) = none := by
  induction l with
  | nil => rfl
  | cons x xs ih =>
    obtain ⟨k', w⟩ := x
    simp only [List.map_cons, List.nodup_cons] at h
    rw [eraseBy_cons]
    by_cases hk : k' = k
    · subst hk
      rw [if_pos rfl]
      exact lookupBy_not_mem_keys h.1
    · rw [if_neg hk, lookupBy_cons, if_neg hk]
      exact ih h.2

/-- `AnnotateChart` leaves other annotation keys untouched. -/
theorem lookupBy_annotateChart_ne {c : HelmChart} {a v k : String} {o : Bool}
    (h : a ≠ k) :
    lookupBy k ((annotateChart c a v o).1.metadata.annotations) =
      lookupBy k c.metadata.annotations := by
  unfold annotateChart
  split
  · exact lookupBy_append_ne _ _ h
  · split
    · exact lookupBy_replaceBy_ne _ _ h
    · rfl

/-- `AnnotateChart` with override leaves the key bound to the value. -/
theorem lookupBy_annotateChart_self (c : HelmChart) (a v : String) :
    lookupBy a ((annotateChart c a v true).1.metadata.annotations) = some v := by
  unfold annotateChart
  split
  · rename_i hcur
    exact lookupBy_append_none _ hcur
  · rename_i cur hcur
    split
    · exact lookupBy_replaceBy_self _ hcur
    · rename_i hco
      have hcv : cur = v := by
        by_contra hne
        exact hco ⟨hne, rfl⟩
      rw [hcur, hcv]

theorem lookupBy_applyChartAnns_ne {k : String} {o : Bool} (anns : List (String × String))
    (h : ∀ kv ∈ anns, kv.1 ≠ k) (acc : HelmChart × Bool) :
    lookupBy k ((anns.foldl (annStep o) acc).1.metadata.annotations) =
      lookupBy k acc.1.metadata.annotations := by
  induction anns generalizing acc with
  | nil => rfl
  | cons kv rest ih =>
    simp only [List.foldl_cons]
    rw [ih (fun kv2 hkv2 => h kv2 (List.mem_cons_of_mem _ hkv2))]
    exact lookupBy_annotateChart_ne (h kv (List.mem_cons_self _ _))

theorem applyOverlayFiles_metadata (overlayFiles : List (String × String)) :
    ∀ c : HelmChart, (applyOverlayFiles overlayFiles c).metadata = c.metadata := by
  induction overlayFiles with
  | nil => intro c; rfl
  | cons kv rest ih =>
    intro c
    unfold applyOverlayFiles at ih ⊢
    simp only [List.foldl_cons]
    rw [ih]
    rfl

theorem overlayChartMetadata_lookup {c : HelmChart} {overlay : ChartMetadata} {k : String}
    (h : ∀ kv ∈ overlay.annotations, kv.1 ≠ k) :
    lookupBy k (overlayChartMetadata c overlay).metadata.annotations =
      lookupBy k c.metadata.annotations := by
  unfold overlayChartMetadata applyChartAnns
  rw [show ∀ m, (overlayDepsType m overlay).annotations = m.annotations from fun m => rfl]
  rw [lookupBy_applyChartAnns_ne overlay.annotations h]
  rfl

theorem buildAnns_keys (cfg : PackageConfig) (c : HelmChart) :
    ∀ kv ∈ buildAnns cfg c, kv.1 ≠ annotationFeatured := by
  intro kv hkv
  unfold buildAnns at hkv
  simp only [List.mem_append] at hkv
  rcases hkv with ((((h | h) | h) | h) | h) | h
  -- auto-install entry
  · split at h
    · obtain rfl := List.mem_singleton.mp h
      show annotationAutoInstall ≠ annotationFeatured
      decide
    · exact absurd h (List.not_mem_nil kv)
  -- experimental entry
  · split at h
    · obtain rfl := List.mem_singleton.mp h
      show annotationExperimental ≠ annotationFeatured
      decide
    · exact absurd h (List.not_mem_nil kv)
  -- hidden entry
  · split at h
    · obtain rfl := List.mem_singleton.mp h
      show annotationHidden ≠ annotationFeatured
      decide
    · exact absurd h (List.not_mem_nil kv)
  -- certified / display-name / release-name entries
  · simp only [List.mem_cons, List.not_mem_nil, or_false] at h
    rcases h with rfl | rfl | rfl
    · show annotationCertified ≠ annotationFeatured
      decide
    · show annotationDisplayName ≠ annotationFeatured
      decide
    · show annotationReleaseName ≠ annotationFeatured
      decide
  -- namespace entry
  · split at h
    · obtain rfl := List.mem_singleton.mp h
      show annotationNamespace ≠ annotationFeatured
      decide
    · exact absurd h (List.not_mem_nil kv)
  -- kube-version entry (two-level conditional)
  · split at h
    · obtain rfl := List.mem_singleton.mp h
      show annotationKubeVersion ≠ annotationFeatured
      decide
    · split at h
      · obtain rfl := List.mem_singleton.mp h
        show annotationKubeVersion ≠ annotationFeatured
        decide
      · exact absurd h (List.not_mem_nil kv)

/-- A successful `addAnnotations` call never touches the featured
annotation. -/
theorem addAnnotations_featured {cfg : PackageConfig} {c c2 : HelmChart}
    (h : addAnnotations cfg c = (c2, false)) :
    lookupBy annotationFeatured c2.metadata.annotations =
      lookupBy annotationFeatured c.metadata.annotations := by
  unfold addAnnotations at h
  split at h
  · split at h
    · exact absurd h (by simp)
    · injection h with h1 h2
      subst h1
      unfold applyChartAnns
      rw [lookupBy_applyChartAnns_ne _ (buildAnns_keys cfg c) _]
  · injection h with h1 h2
    subst h1
    unfold applyChartAnns
    rw [lookupBy_applyChartAnns_ne _ (buildAnns_keys cfg c) _]

/-- `ensureIcon` only rewrites the icon field. -/
theorem ensureIcon_annotations {cfg : PackageConfig} {cw cw2 : ChartWrapper}
    (h : ensureIcon cfg cw = some cw2) :
    cw2.chart.metadata.annotations = cw.chart.metadata.annotations := by
  unfold ensureIcon at h
  split at h
  · exact absurd h (by simp)
  · split at h
    · injection h with h1
      subst h1
      rfl
    · injection h with h1
      subst h1
      rfl

/-- The per-chart processing of `integrateCharts` never introduces the
featured annotation, provided the metadata overlay does not carry it. -/
theorem processNewChart_featured {cfg : PackageConfig} {ofs : List (String × String)}
    {cw cw2 : ChartWrapper}
    (hov : ∀ kv ∈ cfg.chartMetadata.annotations, kv.1 ≠ annotationFeatured)
    (h : processNewChart cfg ofs cw = .ok cw2)
    (habs : lookupBy annotationFeatured cw.chart.metadata.annotations = none) :
    lookupBy annotationFeatured cw2.chart.metadata.annotations = none := by
  unfold processNewChart at h
  split at h
  · exact absurd h (by simp)
  · rename_i c3 hadd
    split at h
    · exact absurd h (by simp)
    · rename_i cw3 hicon
      injection h with h1
      subst h1
      show lookupBy annotationFeatured cw3.chart.metadata.annotations = none
      rw [ensureIcon_annotations hicon]
      show lookupBy annotationFeatured c3.metadata.annotations = none
      rw [addAnnotations_featured hadd, overlayChartMetadata_lookup hov]
      rw [show (applyOverlayFiles ofs cw.chart).metadata.annotations =
        cw.chart.metadata.annotations from congrArg ChartMetadata.annotations
          (applyOverlayFiles_metadata ofs cw.chart)]
      exact habs

theorem processNewCharts_featured {cfg : PackageConfig} {ofs : List (String × String)} :
    ∀ {l l2 : List ChartWrapper},
    (∀ kv ∈ cfg.chartMetadata.annotations, kv.1 ≠ annotationFeatured) →
    processNewCharts cfg ofs l = .ok l2 →
    (∀ cw ∈ l, lookupBy annotationFeatured cw.chart.metadata.annotations = none) →
    ∀ cw2 ∈ l2, lookupBy annotationFeatured cw2.chart.metadata.annotations = none := by
  intro l
  induction l with
  | nil =>
    intro l2 hov h habs cw2 hcw2
    unfold processNewCharts at h
    injection h with h1
    subst h1
    exact absurd hcw2 (List.not_mem_nil cw2)
  | cons cw rest ih =>
    intro l2 hov h habs cw2 hcw2
    unfold processNewCharts at h
    split at h
    · exact absurd h (by simp)
    · rename_i cw1 hp
      split at h
      · exact absurd h (by simp)
      · rename_i rest2 hr
        injection h with h1
        subst h1
        rcases List.mem_cons.mp hcw2 with rfl | hmem
        · exact processNewChart_featured hov hp (habs cw (List.mem_cons_self _ _))
        · exact ih hov hr (fun c hc => habs c (List.mem_cons_of_mem _ hc)) cw2 hmem

theorem scanFeaturedValue_cons (acc : String) (cw : ChartWrapper)
    (rest : List ChartWrapper) :
    scanFeaturedValue acc (cw :: rest) =
      match lookupBy annotationFeatured cw.chart.metadata.annotations with
      | none => scanFeaturedValue acc rest
      | some val =>
        if acc ≠ "" ∧ acc ≠ val then none else scanFeaturedValue val rest := rfl

/-- If the featured-value scan returns the empty string and no existing
chart carries the annotation with an empty value, then no existing chart
carries the annotation at all. -/
theorem scanFeaturedValue_empty :
    ∀ (acc : String) (l : List ChartWrapper),
      scanFeaturedValue acc l = some "" →
      (∀ cw ∈ l, lookupBy annotationFeatured cw.chart.metadata.annotations ≠ some "") →
      acc = "" ∧
        ∀ cw ∈ l, lookupBy annotationFeatured cw.chart.metadata.annotations = none := by
  intro acc l
  induction l generalizing acc with
  | nil =>
    intro h hne
    unfold scanFeaturedValue at h
    injection h with h1
    exact ⟨h1, fun cw hcw => absurd hcw (List.not_mem_nil cw)⟩
  | cons cw rest ih =>
    intro h hne
    cases hval : lookupBy annotationFeatured cw.chart.metadata.annotations with
    | none =>
      replace h : scanFeaturedValue acc rest = some "" := by
        rw [scanFeaturedValue_cons, hval] at h
        exact h
      obtain ⟨hacc, hrest⟩ := ih acc h (fun c hc => hne c (List.mem_cons_of_mem _ hc))
      refine ⟨hacc, fun c hc => ?_⟩
      rcases List.mem_cons.mp hc with rfl | hm
      · exact hval
      · exact hrest c hm
    | some val =>
      replace h : (if acc ≠ "" ∧ acc ≠ val then none
          else scanFeaturedValue val rest) = some "" := by
        rw [scanFeaturedValue_cons, hval] at h
        exact h
      by_cases hcond : acc ≠ "" ∧ acc ≠ val
      · rw [if_pos hcond] at h
        exact absurd h (by simp)
      · rw [if_neg hcond] at h
        obtain ⟨hacc, hrest⟩ := ih val h (fun c hc => hne c (List.mem_cons_of_mem _ hc))
        subst hacc
        exact absurd hval (hne cw (List.mem_cons_self _ _))

/-- A chart wrapper carries the featured annotation. -/
def carriesFeatured (cw : ChartWrapper) : Bool :=
  (lookupBy annotationFeatured cw.chart.metadata.annotations).isSome

/-- The charts of a list that carry the featured annotation. -/
def featuredCarriers (l : List ChartWrapper) : List ChartWrapper :=
  l.filter carriesFeatured

/-- A chart with its featured annotation removed. -/
def eraseFeatured (c : HelmChart) : HelmChart :=
  { c with metadata :=
      { c.metadata with annotations := eraseBy annotationFeatured c.metadata.annotations } }

theorem deannotateChart_not_carrying {c : HelmChart} {a v : String}
    (h : lookupBy a c.metadata.annotations = none) : deannotateChart c a v = (c, false) := by
  unfold deannotateChart
  rw [h]

theorem deannotateFeatured_not_carrying {cw : ChartWrapper}
    (h : lookupBy annotationFeatured cw.chart.metadata.annotations = none) :
    deannotateFeatured cw = cw := by
  unfold deannotateFeatured
  rw [deannotateChart_not_carrying h]
  simp

theorem deannotateChart_featured_of_carrying {c : HelmChart} {cur : String}
    (h : lookupBy annotationFeatured c.metadata.annotations = some cur) :
    deannotateChart c annotationFeatured "" = (eraseFeatured c, true) := by
  unfold deannotateChart
  rw [h]
  show (if "" ≠ "" ∧ cur ≠ "" then (c, false) else (eraseFeatured c, true)) =
    (eraseFeatured c, true)
  rw [if_neg (by rintro ⟨hne, -⟩; exact hne rfl)]

theorem deannotateFeatured_lookup {cw : ChartWrapper}
    (h : (cw.chart.metadata.annotations.map Prod.fst).Nodup) :
    lookupBy annotationFeatured (deannotateFeatured cw).chart.metadata.annotations = none := by
  unfold deannotateFeatured
  cases hval : lookupBy annotationFeatured cw.chart.metadata.annotations with
  | none => rw [deannotateChart_not_carrying hval]; exact hval
  | some cur =>
    rw [deannotateChart_featured_of_carrying hval]
    exact lookupBy_eraseBy_nodup h

theorem annotateFeatured_lookup (v : String) (cw : ChartWrapper) :
    lookupBy annotationFeatured (annotateFeatured v cw).chart.metadata.annotations = some v :=
  lookupBy_annotateChart_self _ _ _

theorem mem_zip_map {α : Type} {f : α → α} :
    ∀ {l : List α} {p : α × α}, p ∈ l.zip (l.map f) → p.2 = f p.1 := by
  intro l
  induction l with
  | nil => intro p h; exact absurd h (List.not_mem_nil p)
  | cons x xs ih =>
    intro p h
    rw [List.map_cons, List.zip_cons_cons] at h
    rcases List.mem_cons.mp h with rfl | h2
    · rfl
    · exact ih h2

/-! ## Fixtures for the integrator claims -/

def exampleConfig : PackageConfig :=
  { displayName := "d", iconFetch := fun _ => some "p" }

def fNew1 : ChartWrapper :=
  { chart := { metadata :=
      { name := "x", version := "1.0.0",
        annotations := [(annotationFeatured, "1")] } } }

def fNew2 : ChartWrapper :=
  { chart := { metadata :=
      { name := "x", version := "1.1.0",
        annotations := [(annotationFeatured, "1")] } } }

def fNew1Out : ChartWrapper :=
  { chart := { metadata :=
      { name := "x", version := "1.0.0", icon := "file://p",
        annotations := [(annotationFeatured, "1"), (annotationCertified, "partner"),
          (annotationDisplayName, "d"), (annotationReleaseName, "")] } },
    modified := true }

def fNew2Out : ChartWrapper :=
  { chart := { metadata :=
      { name := "x", version := "1.1.0", icon := "file://p",
        annotations := [(annotationFeatured, "1"), (annotationCertified, "partner"),
          (annotationDisplayName, "d"), (annotationReleaseName, "")] } },
    modified := true }

def c2wExisting : ChartWrapper :=
  { chart := { metadata :=
      { name := "x", version := "0.9.0",
        annotations := [(annotationFeatured, "2")] } } }

def c2wExistingOut : ChartWrapper :=
  { chart := { metadata := { name := "x", version := "0.9.0", annotations := [] } },
    modified := true }

def c2wNew : ChartWrapper :=
  { chart := { metadata := { name := "x", version := "1.1.0" } } }

def c2wNewOut : ChartWrapper :=
  { chart := { metadata :=
      { name := "x", version := "1.1.0", icon := "file://p",
        annotations := [(annotationCertified, "partner"), (annotationDisplayName, "d"),
          (annotationReleaseName, ""), (annotationFeatured, "2")] } },
    modified := true }

/-! ## Claim C2 -/

/-- Claim C2, counterexample: when the freshly fetched charts already
carry the featured annotation (e.g. from upstream), `integrateCharts`
leaves it in place whenever no existing chart is featured — here both
integrated new charts carry it, so the combined set has two featured
charts. -/
theorem c2_counterexample :
    integrateCharts exampleConfig [] [fNew1, fNew2] = .ok ([], [fNew1Out, fNew2Out]) ∧
      (featuredCarriers ([] ++ [fNew1Out, fNew2Out])).length = 2 :=
  ⟨rfl, rfl⟩

/-- Claim C2 (amended): provided no incoming new chart carries the
featured annotation, the metadata overlay does not introduce it, and no
existing chart carries it with an empty value (existing annotation maps
have unique keys), after a successful `integrateCharts` run at most one
chart across the combined output carries the featured annotation, and any
carrier is the last (most recently integrated) new chart. -/
theorem c2_featured_singleton_amended (cfg : PackageConfig)
    (existingCharts newCharts existingOut newOut : List ChartWrapper)
    (hok : integrateCharts cfg existingCharts newCharts = .ok (existingOut, newOut))
    (hnew : ∀ cw ∈ newCharts,
      lookupBy annotationFeatured cw.chart.metadata.annotations = none)
    (hov : ∀ kv ∈ cfg.chartMetadata.annotations, kv.1 ≠ annotationFeatured)
    (hex1 : ∀ cw ∈ existingCharts,
      lookupBy annotationFeatured cw.chart.metadata.annotations ≠ some "")
    (hex2 : ∀ cw ∈ existingCharts, (cw.chart.metadata.annotations.map Prod.fst).Nodup) :
    (featuredCarriers (existingOut ++ newOut)).length ≤ 1 ∧
      ∀ cw ∈ existingOut ++ newOut, carriesFeatured cw = true →
        newOut.getLast? = some cw := by
  unfold integrateCharts at hok
  split at hok
  · exact absurd hok (by simp)
  · rename_i ofs hofs
    split at hok
    · exact absurd hok (by simp)
    · rename_i newP hnewP
      have hnewPfeat : ∀ cw ∈ newP,
          lookupBy annotationFeatured cw.chart.metadata.annotations = none :=
        processNewCharts_featured hov hnewP hnew
      unfold ensureFeatured at hok
      split at hok
      · exact absurd hok (by simp)
      · rename_i v hscan
        by_cases hv : v = ""
        · subst hv
          rw [if_pos rfl] at hok
          injection hok with hok
          injection hok with h1 h2
          subst h1
          subst h2
          have hexnone := (scanFeaturedValue_empty "" existingCharts hscan hex1).2
          have hcar : ∀ cw ∈ existingCharts ++ newP, carriesFeatured cw = false := by
            intro cw hcw
            rcases List.mem_append.mp hcw with hm | hm
            · unfold carriesFeatured
              rw [hexnone cw hm]
              rfl
            · unfold carriesFeatured
              rw [hnewPfeat cw hm]
              rfl
          constructor
          · have : featuredCarriers (existingCharts ++ newP) = [] := by
              unfold featuredCarriers
              rw [List.filter_eq_nil_iff]
              intro cw hcw
              rw [hcar cw hcw]
              simp
            rw [this]
            simp
          · intro cw hcw hcarr
            rw [hcar cw hcw] at hcarr
            exact absurd hcarr (by simp)
        · rw [if_neg hv] at hok
          split at hok
          · exact absurd hok (by simp)
          · rename_i lastNewChart hlast
            injection hok with hok
            injection hok with h1 h2
            subst h1
            subst h2
            have hexgone : ∀ cw ∈ existingCharts.map (deannotateFeatured),
                lookupBy annotationFeatured cw.chart.metadata.annotations = none := by
              intro cw hcw
              rcases List.mem_map.mp hcw with ⟨e, he, rfl⟩
              exact deannotateFeatured_lookup (hex2 e he)
            have hdropgone : ∀ cw ∈ newP.dropLast,
                lookupBy annotationFeatured cw.chart.metadata.annotations = none :=
              fun cw hcw => hnewPfeat cw ((List.dropLast_sublist newP).subset hcw)
            have hlastfeat :
                lookupBy annotationFeatured
                  (annotateFeatured v lastNewChart).chart.metadata.annotations = some v :=
              annotateFeatured_lookup v lastNewChart
            have hgetlast : (newP.dropLast ++ [annotateFeatured v lastNewChart]).getLast? =
                some (annotateFeatured v lastNewChart) := by
              rw [List.getLast?_concat]
            constructor
            · unfold featuredCarriers
              rw [List.filter_append, List.filter_append]
              have he1 : (existingCharts.map (deannotateFeatured)).filter carriesFeatured = [] := by
                rw [List.filter_eq_nil_iff]
                intro cw hcw
                unfold carriesFeatured
                rw [hexgone cw hcw]
                simp
              have he2 : newP.dropLast.filter carriesFeatured = [] := by
                rw [List.filter_eq_nil_iff]
                intro cw hcw
                unfold carriesFeatured
                rw [hdropgone cw hcw]
                simp
              rw [he1, he2]
              simp only [List.nil_append, List.filter_cons, List.filter_nil]
              split <;> simp
            · intro cw hcw hcarr
              rcases List.mem_append.mp hcw with hm | hm
              · unfold carriesFeatured at hcarr
                rw [hexgone cw hm] at hcarr
                exact absurd hcarr (by simp)
              · rcases List.mem_append.mp hm with hm2 | hm2
                · unfold carriesFeatured at hcarr
                  rw [hdropgone cw hm2] at hcarr
                  exact absurd hcarr (by simp)
                · rw [List.mem_singleton.mp hm2]
                  exact hgetlast

/-- Witness for the amended C2: one featured existing chart and one new
chart; after integration exactly the new chart carries the value. -/
theorem c2_featured_singleton_amended_witness :
    (featuredCarriers ([c2wExistingOut] ++ [c2wNewOut])).length ≤ 1 ∧
      ([c2wNewOut] : List ChartWrapper).getLast? = some c2wNewOut :=
  ⟨(c2_featured_singleton_amended exampleConfig [c2wExisting] [c2wNew] [c2wExistingOut]
      [c2wNewOut] rfl (by decide) (by decide) (by decide) (by decide)).1,
    (c2_featured_singleton_amended exampleConfig [c2wExisting] [c2wNew] [c2wExistingOut]
      [c2wNewOut] rfl (by decide) (by decide) (by decide) (by decide)).2 c2wNewOut
      (by decide) (by decide)⟩

/-! ## Claim C3 -/

/-- Claim C3: existing charts pass through `integrateCharts` untouched
except for the featured-annotation step: an existing chart that does not
carry the featured annotation comes out field-for-field identical (its
modified flag included), and in every case the only possible alteration is
the removal of the featured annotation (with the modified flag raised). -/
theorem c3_existing_charts_immutable (cfg : PackageConfig)
    (existingCharts newCharts existingOut newOut : List ChartWrapper)
    (hok : integrateCharts cfg existingCharts newCharts = .ok (existingOut, newOut)) :
    existingOut.length = existingCharts.length ∧
      ∀ p ∈ existingCharts.zip existingOut,
        (lookupBy annotationFeatured p.1.chart.metadata.annotations = none → p.2 = p.1) ∧
        (p.2 = p.1 ∨
          (p.2.chart = eraseFeatured p.1.chart ∧ p.2.modified = true ∧
            carriesFeatured p.1 = true)) := by
  unfold integrateCharts at hok
  split at hok
  · exact absurd hok (by simp)
  · rename_i ofs hofs
    split at hok
    · exact absurd hok (by simp)
    · rename_i newP hnewP
      unfold ensureFeatured at hok
      split at hok
      · exact absurd hok (by simp)
      · rename_i v hscan
        by_cases hv : v = ""
        · subst hv
          rw [if_pos rfl] at hok
          injection hok with hok
          injection hok with h1 h2
          subst h1
          constructor
          · rfl
          · intro p hp
            have hpp : p.2 = p.1 := by
              have : existingCharts.zip existingCharts =
                  existingCharts.zip (existingCharts.map id) := by rw [List.map_id]
              rw [this] at hp
              exact mem_zip_map hp
            exact ⟨fun _ => hpp, Or.inl hpp⟩
        · rw [if_neg hv] at hok
          split at hok
          · exact absurd hok (by simp)
          · rename_i lastNewChart hlast
            injection hok with hok
            injection hok with h1 h2
            subst h1
            constructor
            · exact List.length_map _ _
            · intro p hp
              have hpp : p.2 = deannotateFeatured p.1 := mem_zip_map hp
              cases hval : lookupBy annotationFeatured p.1.chart.metadata.annotations with
              | none =>
                have : p.2 = p.1 := by
                  rw [hpp, deannotateFeatured_not_carrying hval]
                exact ⟨fun _ => this, Or.inl this⟩
              | some cur =>
                refine ⟨fun hnone => absurd hnone (by simp), Or.inr ?_⟩
                have hchart : p.2.chart = eraseFeatured p.1.chart := by
                  rw [hpp]
                  unfold deannotateFeatured
                  rw [deannotateChart_featured_of_carrying hval]
                have hmod : p.2.modified = true := by
                  rw [hpp]
                  unfold deannotateFeatured
                  rw [deannotateChart_featured_of_carrying hval]
                  simp
                refine ⟨hchart, hmod, ?_⟩
                unfold carriesFeatured
                rw [hval]
                rfl

/-- Witness for C3 at a concrete run: the featured existing chart is
altered only by removal of the annotation. -/
theorem c3_existing_charts_immutable_witness :
    ([c2wExistingOut] : List ChartWrapper).length =
        ([c2wExisting] : List ChartWrapper).length ∧
      ((lookupBy annotationFeatured c2wExisting.chart.metadata.annotations = none →
          c2wExistingOut = c2wExisting) ∧
        (c2wExistingOut = c2wExisting ∨
          (c2wExistingOut.chart = eraseFeatured c2wExisting.chart ∧
            c2wExistingOut.modified = true ∧ carriesFeatured c2wExisting = true))) :=
  ⟨(c3_existing_charts_immutable exampleConfig [c2wExisting] [c2wNew] [c2wExistingOut]
      [c2wNewOut] rfl).1,
    (c3_existing_charts_immutable exampleConfig [c2wExisting] [c2wNew] [c2wExistingOut]
      [c2wNewOut] rfl).2 (c2wExisting, c2wExistingOut) (by decide)⟩

/-! ## Claim C8 -/

def c8Config : PackageConfig := { packageVersion := 99 }

def c8Chart : HelmChart := { metadata := { version := "1.2.3" } }

/-- Claim C8: when a non-zero package version is configured and
`GeneratePackageVersion` fails, `addAnnotations` writes the empty
generated version into the chart's version field before returning the
error; the assembled annotations are never applied. -/
theorem c8_version_clobbered_on_error (cfg : PackageConfig) (c : HelmChart)
    (hpv : cfg.packageVersion ≠ 0)
    (herr : generatePackageVersion c.metadata.version (some cfg.packageVersion) = .error ()) :
    addAnnotations cfg c =
      ({ c with metadata := { c.metadata with version := "" } }, true) := by
  unfold addAnnotations
  rw [if_pos hpv, herr]

/-- Witness for C8: package version `99` is rejected by
`GeneratePackageVersion`, and the chart's version field ends up empty. -/
theorem c8_version_clobbered_on_error_witness :
    addAnnotations c8Config c8Chart =
      ({ c8Chart with metadata := { c8Chart.metadata with version := "" } }, true) :=
  c8_version_clobbered_on_error c8Config c8Chart (by decide) rfl

/-! ## Claim C9 -/

def c9Existing : ChartWrapper :=
  { chart := { metadata := { annotations := [(annotationFeatured, "")] } } }

def c9wExisting : ChartWrapper :=
  { chart := { metadata := { annotations := [(annotationFeatured, "2")] } } }

/-- Claim C9, counterexample: an existing chart that carries the featured
annotation with the empty value makes the scan end with `""`, so
`ensureFeaturedAnnotation` returns successfully even though an existing
chart carries the annotation and `newCharts` is empty — no out-of-range
panic occurs. -/
theorem c9_counterexample :
    ensureFeatured [c9Existing] [] = .ok ([c9Existing], []) ∧
      lookupBy annotationFeatured c9Existing.chart.metadata.annotations = some "" :=
  ⟨rfl, rfl⟩

/-- Claim C9 (amended): `ensureFeaturedAnnotation` indexes
`newCharts[len(newCharts)-1]` without an emptiness check, but only after
the featured-value scan of the existing charts completes with a non-empty
value; in that case an empty `newCharts` panics (out-of-range index).
When the scan completes with the empty value — no existing chart carries
the annotation with a non-empty value — the function returns successfully
for every `newCharts`, including the empty list. -/
theorem c9_featured_scan_panic_amended (existingCharts : List ChartWrapper) (v : String)
    (newCharts : List ChartWrapper)
    (hscan : scanFeaturedValue "" existingCharts = some v) :
    (v ≠ "" → ensureFeatured existingCharts [] = .error .featuredPanic) ∧
      (v = "" → ensureFeatured existingCharts newCharts = .ok (existingCharts, newCharts)) := by
  constructor
  · intro hv
    unfold ensureFeatured
    rw [hscan]
    show (if v = "" then _ else _) = _
    rw [if_neg hv]
    rfl
  · intro hv
    subst hv
    unfold ensureFeatured
    rw [hscan]
    rfl

/-- Witness for the amended C9: a non-empty scan value with empty
`newCharts` yields the modelled panic. -/
theorem c9_featured_scan_panic_amended_witness :
    (("2" : String) ≠ "" → ensureFeatured [c9wExisting] [] = .error .featuredPanic) ∧
      (("2" : String) = "" → ensureFeatured [c9wExisting] [] = .ok ([c9wExisting], [])) :=
  c9_featured_scan_panic_amended [c9wExisting] "2" [] rfl


/-! ## Claim C4: validator normalization -/

theorem lookupBy_mem {α : Type} {k : String} {v : α} :
    ∀ {l : List (String × α)}, lookupBy k l = some v → (k, v) ∈ l := by
  intro l
  induction l with
  | nil => intro h; exact absurd h (by simp [lookupBy])
  | cons e rest ih =>
    intro h
    obtain ⟨k', w⟩ := e
    rw [lookupBy_cons] at h
    by_cases hk : k' = k
    · simp only [if_pos hk] at h
      subst hk
      injection h with h
      subst h
      exact List.mem_cons_self _ _
    · simp only [if_neg hk] at h
      exact List.mem_cons_of_mem _ (ih h)

theorem lookupBy_self_of_nodup {α : Type} {k : String} {v : α} :
    ∀ {l : List (String × α)}, (k, v) ∈ l → (l.map Prod.fst).Nodup →
      lookupBy k l = some v := by
  intro l
  induction l with
  | nil => intro h _; exact absurd h (List.not_mem_nil _)
  | cons e rest ih =>
    intro hmem hnd
    obtain ⟨k', w⟩ := e
    rw [List.map_cons] at hnd
    have hnd' := List.nodup_cons.mp hnd
    rcases List.mem_cons.mp hmem with heq | hmem'
    · injection heq with h1 h2
      rw [lookupBy_cons, if_pos h1.symm, h2]
    · have hne : k' ≠ k := by
        intro hkk
        subst hkk
        exact hnd'.1 (List.mem_map.mpr ⟨(k', v), hmem', rfl⟩)
      rw [lookupBy_cons, if_neg hne]
      exact ih hmem' hnd'.2

theorem skippedFile_nil (p : String) : skippedFile [] p = false := by
  simp [skippedFile]

theorem checkedSet_of_mem {t : DirTree} {p : String} {c : FileContent}
    (h : (p, c) ∈ t) : checkedSet t [] p = true := by
  rw [checkedSet, skippedFile_nil]
  simp only [Bool.not_false, Bool.true_and]
  exact List.any_eq_true.mpr ⟨(p, c), h, by simp⟩

/-- A comparison of a key-unique directory tree against itself matches. -/
theorem compare_self_isMatch (f : FileContent → FileContent → Bool) (t : DirTree)
    (hnd : (t.map Prod.fst).Nodup) :
    (compareDirectoriesWith f t t []).isMatch = true := by
  have hvis : t.filter (fun e => !skippedFile [] e.1) = t :=
    List.filter_eq_self.mpr fun e _ => by rw [skippedFile_nil]; rfl
  have hclass : ∀ e ∈ t, classifyEntry f t e = .unchanged := by
    intro e he
    obtain ⟨q, c⟩ := e
    have hl : lookupBy q t = some c := lookupBy_self_of_nodup he hnd
    simp only [classifyEntry, hl]
    simp
  simp only [compareDirectoriesWith, DirectoryComparison.isMatch]
  rw [hvis]
  have h1 : t.filter (fun e => classifyEntry f t e == FileClass.modified) = [] :=
    List.filter_eq_nil_iff.mpr fun e he => by rw [hclass e he]; decide
  have h2 : t.filter (fun e => classifyEntry f t e == FileClass.removed) = [] :=
    List.filter_eq_nil_iff.mpr fun e he => by rw [hclass e he]; decide
  have h3 : t.filter (fun e => !skippedFile [] e.1 && !checkedSet t [] e.1) = [] :=
    List.filter_eq_nil_iff.mpr fun e he => by
      obtain ⟨q, c⟩ := e
      simp [checkedSet_of_mem he]
  rw [h1, h2, h3]
  rfl

theorem mem_unchanged_of (f : FileContent → FileContent → Bool) {t1 : DirTree}
    (t2 : DirTree) (skipDirs : List String) {e : String × FileContent}
    (he : e ∈ t1) (hsk : skippedFile skipDirs e.1 = false)
    (hc : classifyEntry f t2 e = .unchanged) :
    e.1 ∈ (compareDirectoriesWith f t1 t2 skipDirs).unchanged := by
  simp only [compareDirectoriesWith]
  exact List.mem_map.mpr
    ⟨e, List.mem_filter.mpr ⟨List.mem_filter.mpr ⟨he, by simp [hsk]⟩, by simp [hc]⟩, rfl⟩

theorem mem_modified_of (f : FileContent → FileContent → Bool) {t1 : DirTree}
    (t2 : DirTree) (skipDirs : List String) {e : String × FileContent}
    (he : e ∈ t1) (hsk : skippedFile skipDirs e.1 = false)
    (hc : classifyEntry f t2 e = .modified) :
    e.1 ∈ (compareDirectoriesWith f t1 t2 skipDirs).modified := by
  simp only [compareDirectoriesWith]
  exact List.mem_map.mpr
    ⟨e, List.mem_filter.mpr ⟨List.mem_filter.mpr ⟨he, by simp [hsk]⟩, by simp [hc]⟩, rfl⟩

theorem not_isMatch_of_mem_modified {d : DirectoryComparison} {q : String}
    (h : q ∈ d.modified) : d.isMatch = false := by
  rw [DirectoryComparison.isMatch]
  have hpos : 0 < d.modified.length := List.length_pos.mpr (List.ne_nil_of_mem h)
  simp only [beq_eq_false_iff_ne]
  omega

theorem exportChartDir_keys (c : HelmChart) :
    (exportChartDir c).map Prod.fst = "Chart.yaml" :: c.files.map Prod.fst := by
  simp [exportChartDir]

/-- Claim C4: for two chart archives at the same relative path of the
compared trees (not under a skipped directory), (1) if they normalize to
the same chart — i.e. they differ only in `catalog.cattle.io`-namespaced
annotations, the deprecated flag, and byte-level residue — the path is
reported Unchanged (the chart's file names being unique and `Chart.yaml`
not among them); (2) if some file of the normalized exports (a template or
values file) is present in both with differing contents, the path is
reported Modified. -/
theorem c4_validator_normalization (t1 t2 : DirTree) (skipDirs : List String)
    (p : String) (a b : HelmChart) (r1 r2 : Nat)
    (h1 : (p, FileContent.archive a r1) ∈ t1)
    (h2 : lookupBy p t2 = some (FileContent.archive b r2))
    (hsk : skippedFile skipDirs p = false)
    (htgz : strEndsWith p ".tgz" = true) :
    (normalizeChart a = normalizeChart b →
        (a.files.map Prod.fst).Nodup →
        "Chart.yaml" ∉ a.files.map Prod.fst →
        p ∈ (compareDirectories t1 t2 skipDirs).unchanged) ∧
      (∀ q d1 d2,
        lookupBy q (exportChartDir (normalizeChart a)) = some (FileContent.bytes d1) →
        lookupBy q (exportChartDir (normalizeChart b)) = some (FileContent.bytes d2) →
        d1 ≠ d2 →
        p ∈ (compareDirectories t1 t2 skipDirs).modified) := by
  constructor
  · intro hnorm hnd hcy
    show p ∈ (compareDirectoriesWith matchHelmCharts t1 t2 skipDirs).unchanged
    apply mem_unchanged_of matchHelmCharts t2 skipDirs h1 hsk
    simp only [classifyEntry, h2]
    by_cases harch : FileContent.archive a r1 = FileContent.archive b r2
    · simp [harch]
    · have hmatch : matchHelmCharts (FileContent.archive a r1)
          (FileContent.archive b r2) = true := by
        show (compareDirectoriesWith matchPlainOnly (exportChartDir (normalizeChart a))
            (exportChartDir (normalizeChart b)) []).isMatch = true
        rw [← hnorm]
        apply compare_self_isMatch
        rw [exportChartDir_keys, List.nodup_cons]
        exact ⟨hcy, hnd⟩
      simp [harch, htgz, hmatch]
  · intro q d1 d2 hq1 hq2 hd
    show p ∈ (compareDirectoriesWith matchHelmCharts t1 t2 skipDirs).modified
    apply mem_modified_of matchHelmCharts t2 skipDirs h1 hsk
    have hne : FileContent.archive a r1 ≠ FileContent.archive b r2 := by
      intro h
      injection h with hab hr
      rw [hab] at hq1
      rw [hq1] at hq2
      injection hq2 with hq2
      injection hq2 with hq2
      exact hd hq2
    have hmatch : matchHelmCharts (FileContent.archive a r1)
        (FileContent.archive b r2) = false := by
      show (compareDirectoriesWith matchPlainOnly (exportChartDir (normalizeChart a))
          (exportChartDir (normalizeChart b)) []).isMatch = false
      have hqmem : q ∈ (compareDirectoriesWith matchPlainOnly
          (exportChartDir (normalizeChart a)) (exportChartDir (normalizeChart b))
          []).modified := by
        have hmem : (q, FileContent.bytes d1) ∈ exportChartDir (normalizeChart a) :=
          lookupBy_mem hq1
        apply mem_modified_of matchPlainOnly _ _ hmem (skippedFile_nil q)
        simp only [classifyEntry, hq2]
        have hbne : FileContent.bytes d1 ≠ FileContent.bytes d2 := by
          intro h
          injection h with h
          exact hd h
        by_cases hq : strEndsWith q ".tgz" = true
        · simp [hbne, hq, matchPlainOnly]
        · simp [hbne, hq]
      exact not_isMatch_of_mem_modified hqmem
    simp only [classifyEntry, h2]
    simp [hne, htgz, hmatch]

def c4Chart1 : HelmChart :=
  { metadata :=
      { name := "x", version := "1.0.0",
        annotations := [(annotationCertified, "partner")] },
    files := [("values.yaml", "v1")] }

def c4Chart2 : HelmChart :=
  { metadata := { name := "x", version := "1.0.0", deprecated := true },
    files := [("values.yaml", "v1")] }

def c4Chart3 : HelmChart :=
  { metadata := { name := "x", version := "1.0.0" },
    files := [("values.yaml", "v2")] }

/-- Witness for C4: a pair differing only in a Rancher annotation and the
deprecated flag is Unchanged; a pair differing in `values.yaml` is
Modified. -/
theorem c4_validator_normalization_witness :
    "a.tgz" ∈ (compareDirectories [("a.tgz", FileContent.archive c4Chart1 0)]
        [("a.tgz", FileContent.archive c4Chart2 1)] []).unchanged ∧
      "a.tgz" ∈ (compareDirectories [("a.tgz", FileContent.archive c4Chart1 0)]
        [("a.tgz", FileContent.archive c4Chart3 1)] []).modified :=
  ⟨(c4_validator_normalization [("a.tgz", .archive c4Chart1 0)]
        [("a.tgz", .archive c4Chart2 1)] [] "a.tgz" c4Chart1 c4Chart2 0 1
        (by decide) rfl (by decide) (by decide)).1 (by decide) (by decide) (by decide),
    (c4_validator_normalization [("a.tgz", .archive c4Chart1 0)]
        [("a.tgz", .archive c4Chart3 1)] [] "a.tgz" c4Chart1 c4Chart3 0 1
        (by decide) rfl (by decide) (by decide)).2 "values.yaml" "v1" "v2" rfl rfl
        (by decide)⟩


end PartnerCharts
